import Mathlib

/-
Shallow embedding of the `python_zod_openapi` package (an OpenAPI → pydantic
code generator) and proofs about it.

Modelling conventions:
- JSON values are the inductive `JValue`; JSON numbers are modelled as `Int`
  (the integer fragment; floats are outside the modelled fragment).
- Python `dict`s are insertion-ordered association lists; updating an existing
  key keeps its position, inserting a new key appends, exactly like CPython.
- Python exceptions are modelled with `Except String`.
- Recursive tree walks take an explicit fuel argument; entry points pass
  `sizeOf` of the value walked, which bounds the recursion depth, so the fuel
  guard is unreachable on every actual input.  The Kahn queue loop takes as
  fuel its classical termination measure (pending in-degree plus queue
  length), which is proved sufficient below.
- The process-wide format registry is threaded explicitly as a value.
- String predicates (`isupper`, `isalnum`, ...) are modelled on the ASCII
  fragment, which is the fragment exercised by the generator's inputs.
-/

/-- JSON-like values manipulated by the generator (Python objects produced by
parsing an OpenAPI document).  Numbers are modelled as integers. -/
inductive JValue where
  | null : JValue
  | bool (b : Bool) : JValue
  | num (n : Int) : JValue
  | str (s : String) : JValue
  | arr (items : List JValue) : JValue
  | obj (fields : List (String × JValue)) : JValue
deriving Inhabited

mutual

/-- Structural size of a JSON value, used as recursion fuel below. -/
def JValue.size : JValue → Nat
  | .null => 1
  | .bool _ => 1
  | .num _ => 1
  | .str _ => 1
  | .arr items => 1 + JValue.sizeList items
  | .obj fields => 1 + JValue.sizeFields fields

/-- Size of a list of JSON values. -/
def JValue.sizeList : List JValue → Nat
  | [] => 0
  | x :: xs => 1 + JValue.size x + JValue.sizeList xs

/-- Size of dict entries. -/
def JValue.sizeFields : List (String × JValue) → Nat
  | [] => 0
  | (_, v) :: xs => 1 + JValue.size v + JValue.sizeFields xs

end

mutual

/-- Structural equality of JSON values, modelling Python `==` on JSON-shaped
data.  (Python additionally identifies `True` with `1` and compares dicts
regardless of key order; on the JSON-shaped data handled by the generator the
two notions agree, and no claim below depends on the difference.) -/
def JValue.beq : JValue → JValue → Bool
  | .null, .null => true
  | .bool a, .bool b => a == b
  | .num a, .num b => a == b
  | .str a, .str b => a == b
  | .arr a, .arr b => JValue.beqList a b
  | .obj a, .obj b => JValue.beqFields a b
  | _, _ => false

/-- Elementwise equality of JSON lists. -/
def JValue.beqList : List JValue → List JValue → Bool
  | [], [] => true
  | x :: xs, y :: ys => JValue.beq x y && JValue.beqList xs ys
  | _, _ => false

/-- Entrywise equality of dict entries. -/
def JValue.beqFields : List (String × JValue) → List (String × JValue) → Bool
  | [], [] => true
  | (k, v) :: xs, (k', v') :: ys =>
      k == k' && JValue.beq v v' && JValue.beqFields xs ys
  | _, _ => false

end

instance : BEq JValue := ⟨JValue.beq⟩

/-- Lookup of a key in a Python dict (first matching entry of the assoc list). -/
def objGet (fields : List (String × JValue)) (k : String) : Option JValue :=
  match fields with
  | [] => none
  | (k', v) :: rest => if k' = k then some v else objGet rest k

/-- Python `d.get(k, default)`. -/
def objGetD (fields : List (String × JValue)) (k : String) (d : JValue) : JValue :=
  (objGet fields k).getD d

/-- Python `k in d` on a dict. -/
def objHasKey (fields : List (String × JValue)) (k : String) : Bool :=
  match fields with
  | [] => false
  | (k', _) :: rest => k' = k || objHasKey rest k

/-- Python `schema.get(k)` where `schema` may be any value; non-dicts have no
keys (call sites guard with `isinstance(schema, dict)`). -/
def jGet (v : JValue) (k : String) : Option JValue :=
  match v with
  | .obj fields => objGet fields k
  | _ => none

/-- Python dict assignment `d[k] = v`: replaces in place, else appends. -/
def dictSet {κ α : Type} [DecidableEq κ] (m : List (κ × α)) (k : κ) (v : α) :
    List (κ × α) :=
  match m with
  | [] => [(k, v)]
  | (k', v') :: rest => if k' = k then (k, v) :: rest else (k', v') :: dictSet rest k v

/-- Lookup in a generic assoc list. -/
def dictGet {κ α : Type} [DecidableEq κ] (m : List (κ × α)) (k : κ) : Option α :=
  match m with
  | [] => none
  | (k', v) :: rest => if k' = k then some v else dictGet rest k

/-- Lookup with a default. -/
def dictGetD {κ α : Type} [DecidableEq κ] (m : List (κ × α)) (k : κ) (d : α) : α :=
  (dictGet m k).getD d

/-- Key membership in a generic assoc list. -/
def dictHasKey {κ α : Type} [DecidableEq κ] (m : List (κ × α)) (k : κ) : Bool :=
  match m with
  | [] => false
  | (k', _) :: rest => k' = k || dictHasKey rest k

/-- Python truthiness of a JSON-like value (`bool(v)`). -/
def pyTruthy : JValue → Bool
  | .null => false
  | .bool b => b
  | .num n => n != 0
  | .str s => !s.isEmpty
  | .arr items => !items.isEmpty
  | .obj fields => !fields.isEmpty

/-- One lowercase hexadecimal digit. -/
def hexDigit (n : Nat) : Char :=
  if n < 10 then Char.ofNat (48 + n) else Char.ofNat (87 + n)

/-- Two lowercase hex digits of a byte. -/
def hex2 (n : Nat) : String :=
  String.mk [hexDigit ((n / 16) % 16), hexDigit (n % 16)]

/-- Four lowercase hex digits. -/
def hex4 (n : Nat) : String :=
  String.mk [hexDigit ((n / 4096) % 16), hexDigit ((n / 256) % 16),
    hexDigit ((n / 16) % 16), hexDigit (n % 16)]

/-- Rendering of one character inside a Python string repr with the given
quote character.  Mirrors CPython's `repr` on the ASCII fragment (printable
non-ASCII is emitted as-is). -/
def pyReprChar (quote : Char) (c : Char) : String :=
  if c = '\\' then "\\\\"
  else if c = quote then String.mk ['\\', c]
  else if c = '\n' then "\\n"
  else if c = '\r' then "\\r"
  else if c = '\t' then "\\t"
  else if c.val < 32 || c.val == 127 then "\\x" ++ hex2 c.toNat
  else String.singleton c

/-- Python `repr` of a string: single quotes, switching to double quotes when
the text contains a single quote but no double quote. -/
def pyReprStr (s : String) : String :=
  let squote := Char.ofNat 39
  let dquote := Char.ofNat 34
  let quote := if s.data.contains squote && !(s.data.contains dquote)
    then dquote else squote
  String.singleton quote ++ String.join (s.data.map (pyReprChar quote)) ++
    String.singleton quote

/-- Python `repr`/`str` of an integer. -/
def pyReprInt (n : Int) : String := toString n

/-- Python `repr` of a JSON-like value (`None`, `True`, `5`, `'a'`, lists and
dicts).  Fueled; entry points pass `sizeOf` of the value. -/
def pyRepr : Nat → JValue → String
  | 0, _ => ""
  | _ + 1, .null => "None"
  | _ + 1, .bool b => if b then "True" else "False"
  | _ + 1, .num n => pyReprInt n
  | _ + 1, .str s => pyReprStr s
  | fuel + 1, .arr items =>
      "[" ++ String.intercalate ", " (items.map (pyRepr fuel)) ++ "]"
  | fuel + 1, .obj fields =>
      "\x7b" ++ String.intercalate ", "
        (fields.map (fun p => pyReprStr p.1 ++ ": " ++ pyRepr fuel p.2)) ++ "\x7d"

/-- Python `str` of a JSON-like value: identity on strings, `repr` otherwise. -/
def pyStr (v : JValue) : String :=
  match v with
  | .str s => s
  | _ => pyRepr (JValue.size v) v

/-- Strict lexicographic comparison of char lists by code point. -/
def charsLt : List Char → List Char → Bool
  | [], [] => false
  | [], _ :: _ => true
  | _ :: _, [] => false
  | a :: as, b :: bs =>
      if a.val < b.val then true
      else if a.val = b.val then charsLt as bs
      else false

/-- Python `<` on strings (lexicographic by code point). -/
def pyStrLt (a b : String) : Bool := charsLt a.data b.data

/-- Stable insertion of an entry into a key-sorted assoc list (used to model
`sorted(obj.keys())`: equal keys keep their relative order). -/
def insertByKey (p : String × JValue) :
    List (String × JValue) → List (String × JValue)
  | [] => [p]
  | q :: rest =>
      if pyStrLt p.1 q.1 then p :: q :: rest else q :: insertByKey p rest

/-- Stable sort of dict entries by key, modelling iteration over
`sorted(obj.keys())` (dict keys are unique, so entry order determines it). -/
def sortFieldsByKey (fields : List (String × JValue)) : List (String × JValue) :=
  match fields with
  | [] => []
  | p :: rest => insertByKey p (sortFieldsByKey rest)

/-- JSON escaping of one character as in `json.dumps` with `ensure_ascii`
(characters outside `0x20`-`0x7e` are `\uXXXX`-escaped; astral characters are
outside the modelled fragment). -/
def jsonEscapeChar (c : Char) : String :=
  if c = Char.ofNat 34 then "\\\""
  else if c = '\\' then "\\\\"
  else if c = '\n' then "\\n"
  else if c = '\r' then "\\r"
  else if c = '\t' then "\\t"
  else if c.val = 8 then "\\b"
  else if c.val = 12 then "\\f"
  else if c.val < 32 || c.val > 126 then "\\u" ++ hex4 c.toNat
  else String.singleton c

/-- JSON string literal as emitted by `json.dumps`. -/
def jsonQuote (s : String) : String :=
  "\"" ++ String.join (s.data.map jsonEscapeChar) ++ "\""

/-- Model of `json.dumps(v, sort_keys=True)` with default separators. -/
def jsonDumpsSorted : Nat → JValue → String
  | 0, _ => ""
  | _ + 1, .null => "null"
  | _ + 1, .bool b => if b then "true" else "false"
  | _ + 1, .num n => pyReprInt n
  | _ + 1, .str s => jsonQuote s
  | fuel + 1, .arr items =>
      "[" ++ String.intercalate ", " (items.map (jsonDumpsSorted fuel)) ++ "]"
  | fuel + 1, .obj fields =>
      "\x7b" ++ String.intercalate ", "
        ((sortFieldsByKey fields).map
          (fun p => jsonQuote p.1 ++ ": " ++ jsonDumpsSorted fuel p.2)) ++ "\x7d"

/-- Hexadecimal digit value of a char, if any. -/
def hexVal (c : Char) : Option Nat :=
  if 48 ≤ c.val && c.val ≤ 57 then some (c.toNat - 48)
  else if 97 ≤ c.val && c.val ≤ 102 then some (c.toNat - 87)
  else if 65 ≤ c.val && c.val ≤ 70 then some (c.toNat - 55)
  else none

/-- Model of `urllib.parse.unquote` on the ASCII fragment: `%XX` pairs decode
to the corresponding character, malformed escapes are left untouched.
Fueled by the list length, which bounds the number of steps. -/
def pyUnquoteChars : Nat → List Char → List Char
  | 0, l => l
  | _ + 1, [] => []
  | fuel + 1, c :: rest =>
      if c = Char.ofNat 37 then
        match rest with
        | a :: b :: rest' =>
            (match hexVal a, hexVal b with
            | some ha, some hb =>
                Char.ofNat (16 * ha + hb) :: pyUnquoteChars fuel rest'
            | _, _ => c :: pyUnquoteChars fuel (a :: b :: rest'))
        | _ => c :: pyUnquoteChars fuel rest
      else c :: pyUnquoteChars fuel rest

/-- Percent-decoding of a string. -/
def pyUnquote (s : String) : String :=
  String.mk (pyUnquoteChars s.data.length s.data)

/-- ASCII uppercase letter test (Python `str.isupper` on one character). -/
def pyIsUpperChar (c : Char) : Bool := 65 ≤ c.val && c.val ≤ 90

/-- ASCII lowercase letter test. -/
def pyIsLowerChar (c : Char) : Bool := 97 ≤ c.val && c.val ≤ 122

/-- ASCII letter test. -/
def pyIsAlphaChar (c : Char) : Bool := pyIsUpperChar c || pyIsLowerChar c

/-- ASCII digit test. -/
def pyIsDigitChar (c : Char) : Bool := 48 ≤ c.val && c.val ≤ 57

/-- ASCII alphanumeric test (Python `str.isalnum` on the ASCII fragment). -/
def pyIsAlnumChar (c : Char) : Bool := pyIsAlphaChar c || pyIsDigitChar c

/-- Uppercasing of one ASCII character. -/
def pyUpperChar (c : Char) : Char :=
  if pyIsLowerChar c then Char.ofNat (c.toNat - 32) else c

/-- Lowercasing of one ASCII character. -/
def pyLowerChar (c : Char) : Char :=
  if pyIsUpperChar c then Char.ofNat (c.toNat + 32) else c

/-- Python `s.upper()` on the ASCII fragment. -/
def pyUpper (s : String) : String := String.mk (s.data.map pyUpperChar)

/-- Python `s.lower()` on the ASCII fragment. -/
def pyLower (s : String) : String := String.mk (s.data.map pyLowerChar)

/-- Python `s.islower()`: at least one cased character and no uppercase one
(ASCII fragment). -/
def pyStrIsLower (s : String) : Bool :=
  s.data.any pyIsAlphaChar && s.data.all (fun c => !(pyIsUpperChar c))

/-- Python `s.capitalize()` on the ASCII fragment: first character uppercased,
the rest lowercased. -/
def pyCapitalize (s : String) : String :=
  match s.data with
  | [] => ""
  | c :: rest => String.mk (pyUpperChar c :: rest.map pyLowerChar)

/-- Python whitespace characters for `str.split()`. -/
def pyIsSpaceChar (c : Char) : Bool :=
  c.val == 32 || c.val == 9 || c.val == 10 || c.val == 13 || c.val == 11 ||
    c.val == 12

/-- Helper for `pySplitWs`: accumulate the current word in reverse. -/
def pySplitWsAux : List Char → List Char → List String
  | [], cur => if cur.isEmpty then [] else [String.mk cur.reverse]
  | c :: rest, cur =>
      if pyIsSpaceChar c then
        if cur.isEmpty then pySplitWsAux rest []
        else String.mk cur.reverse :: pySplitWsAux rest []
      else pySplitWsAux rest (c :: cur)

/-- Python `s.split()` (split on whitespace runs, no empty parts). -/
def pySplitWs (s : String) : List String := pySplitWsAux s.data []

/-- The Python keyword list backing `keyword.iskeyword`. -/
def pyKeywords : List String :=
  ["False", "None", "True", "and", "as", "assert", "async", "await", "break",
   "class", "continue", "def", "del", "elif", "else", "except", "finally",
   "for", "from", "global", "if",
   "import", "in", "is", "lambda", "nonlocal", "not", "or", "pass", "raise",
   "return", "try", "while", "with", "yield"]

/-- Python `keyword.iskeyword`. -/
def pyIsKeyword (s : String) : Bool := pyKeywords.contains s

/-- Deduplication keeping first occurrences, with an accumulator of names
already seen (models collecting into a Python `set`; the set's iteration
order is fixed within one process, and no property proved below depends on
the particular order). -/
def dedupFirstAux (seen : List String) : List String → List String
  | [] => []
  | x :: rest =>
      if seen.contains x then dedupFirstAux seen rest
      else x :: dedupFirstAux (x :: seen) rest

/-- Deduplication of a list keeping first occurrences. -/
def dedupFirst (l : List String) : List String := dedupFirstAux [] l

/-- `s.startswith(p)` over the character lists. -/
def strStartsWith (s p : String) : Bool := List.isPrefixOf p.data s.data

/-- `s.endswith(p)` over the character lists. -/
def strEndsWith (s p : String) : Bool := List.isSuffixOf p.data s.data

/-- Helper for `strSplitOn`: split at each leftmost occurrence of the
separator.  The fuel is the length of the remaining character list (every
recursive call consumes at least one character). -/
def strSplitOnAux (sep : List Char) : Nat → List Char → List Char → List String
  | _, [], cur => [String.mk cur.reverse]
  | 0, xs, cur => [String.mk (cur.reverse ++ xs)]
  | fuel + 1, x :: xs, cur =>
      if List.isPrefixOf sep (x :: xs) then
        String.mk cur.reverse :: strSplitOnAux sep fuel (List.drop (sep.length - 1) xs) []
      else strSplitOnAux sep fuel xs (x :: cur)

/-- Python `s.split(sep)` for a nonempty separator. -/
def strSplitOn (s sep : String) : List String :=
  if sep.data.isEmpty then [s]
  else strSplitOnAux sep.data s.data.length s.data []

/-- Python `s.replace(a, b)` for single-character `a` and `b`. -/
def strReplaceChar (s : String) (a b : Char) : String :=
  String.mk (s.data.map (fun c => if c = a then b else c))

/-- Helper for `strSplitPred`: split at every character satisfying the
predicate, keeping empty parts. -/
def strSplitPredAux (p : Char → Bool) : List Char → List Char → List String
  | [], cur => [String.mk cur.reverse]
  | c :: rest, cur =>
      if p c then String.mk cur.reverse :: strSplitPredAux p rest []
      else strSplitPredAux p rest (c :: cur)

/-- Split a string at every character satisfying the predicate (empty parts
kept, as with a 1-character regex split). -/
def strSplitPred (s : String) (p : Char → Bool) : List String :=
  strSplitPredAux p s.data []

/-! Embedding of `python_zod_openapi/schema_dedup.py`. -/

namespace SchemaDedup

/-- Model of `_sort_object_deep`: recursively sort dict keys, keep array
order.  Fueled; entry points pass the value's size. -/
def _sort_object_deep : Nat → JValue → JValue
  | 0, v => v
  | fuel + 1, .arr items => .arr (items.map (_sort_object_deep fuel))
  | fuel + 1, .obj fields =>
      .obj ((sortFieldsByKey fields).map (fun p => (p.1, _sort_object_deep fuel p.2)))
  | _ + 1, v => v

/-- Model of `get_schema_fingerprint`: canonical serialized form
(`json.dumps(_sort_object_deep(schema), sort_keys=True)`). -/
def get_schema_fingerprint (schema : JValue) : String :=
  let sorted := _sort_object_deep (JValue.size schema) schema
  jsonDumpsSorted (JValue.size sorted) sorted

/-- Model of the `SchemaRegistry` dataclass. -/
structure SchemaRegistry where
  fingerprint_to_name : List (String × String)
deriving DecidableEq

/-- Model of `create_schema_registry`. -/
def create_schema_registry : SchemaRegistry := ⟨[]⟩

/-- Model of the `RegisterSchemaResult` dataclass. -/
structure RegisterSchemaResult where
  is_new : Bool
  canonical_name : String
deriving DecidableEq

/-- Model of `register_schema`.  The Python function mutates the registry in
place; here the updated registry is returned alongside the result.  Note the
Python code tests `if existing:` (truthiness), so an existing empty-string
name is overwritten as if absent. -/
def register_schema (registry : SchemaRegistry) (name : String) (schema : JValue) :
    SchemaRegistry × RegisterSchemaResult :=
  let fingerprint := get_schema_fingerprint schema
  match dictGet registry.fingerprint_to_name fingerprint with
  | some existing =>
      if existing ≠ "" then (registry, ⟨false, existing⟩)
      else (⟨dictSet registry.fingerprint_to_name fingerprint name⟩, ⟨true, name⟩)
  | none => (⟨dictSet registry.fingerprint_to_name fingerprint name⟩, ⟨true, name⟩)

/-- Model of `pre_register_schema`: unconditionally map the fingerprint. -/
def pre_register_schema (registry : SchemaRegistry) (name : String)
    (fingerprint : String) : SchemaRegistry :=
  ⟨dictSet registry.fingerprint_to_name fingerprint name⟩

/-- Model of `extract_error_code`: detect a single-valued `code` enum inside
an `{error: {code, message}}`-shaped schema.  The Python function calls
`schema.get` unguarded, so a non-dict schema raises `AttributeError`. -/
def extract_error_code (schema : JValue) : Except String (Option String) :=
  match schema with
  | .obj fields =>
      .ok (match objGet fields "properties" with
        | some (.obj props) =>
            match objGet props "error" with
            | some (.obj errorObj) =>
                match objGet errorObj "properties" with
                | some (.obj errorProps) =>
                    match objGet errorProps "code" with
                    | some (.obj codeSchema) =>
                        match objGet codeSchema "enum" with
                        | some (.arr codeEnum) =>
                            match codeEnum with
                            | [v] => some (pyStr v)
                            | _ => none
                        | _ => none
                    | _ => none
                | _ => none
            | _ => none
        | _ => none)
  | _ => .error "AttributeError: 'get'"

/-- Model of `error_code_to_pascal_case`: capitalize each `_`-separated part. -/
def error_code_to_pascal_case (code : String) : String :=
  String.join ((strSplitOn code "_").map pyCapitalize)

/-- Model of `generate_common_error_schema_name`. -/
def generate_common_error_schema_name (error_code : String) : String :=
  error_code_to_pascal_case error_code ++ "Error"

/-- Model of the `CommonSchema` dataclass. -/
structure CommonSchema where
  name : String
  schema : JValue
  fingerprint : String
  count : Nat

/-- Model of the `NamedSchema` typed dict. -/
structure NamedSchema where
  name : String
  schema : JValue

/-- Per-fingerprint accumulated data inside `find_common_schemas`. -/
structure FingerprintGroup where
  schema : JValue
  names : List String
  error_code : Option String

/-- One step of the grouping loop in `find_common_schemas`. -/
def groupStep (acc : List (String × FingerprintGroup)) (item : NamedSchema) :
    Except String (List (String × FingerprintGroup)) :=
  let fingerprint := get_schema_fingerprint item.schema
  match dictGet acc fingerprint with
  | some existing =>
      .ok (dictSet acc fingerprint
        { existing with names := existing.names ++ [item.name] })
  | none => do
      let ec ← extract_error_code item.schema
      .ok (acc ++ [(fingerprint, ⟨item.schema, [item.name], ec⟩)])

/-- Conversion of one fingerprint group to a `CommonSchema` entry, when the
group has at least `min_count` occurrences. -/
def groupToCommon (min_count : Nat) (p : String × FingerprintGroup) :
    Option CommonSchema :=
  if p.2.names.length < min_count then none
  else
    let name := match p.2.error_code with
      | some error_code => generate_common_error_schema_name error_code
      | none => p.2.names.headD ""
    some ⟨name, p.2.schema, p.1, p.2.names.length⟩

/-- Stable insertion for `sorted(..., key=count, reverse=True)`: an element
goes after every element with a count at least as large. -/
def insertByCountDesc (x : CommonSchema) : List CommonSchema → List CommonSchema
  | [] => [x]
  | y :: rest =>
      if y.count < x.count then x :: y :: rest else y :: insertByCountDesc x rest

/-- Model of `find_common_schemas`: group by fingerprint, keep groups with at
least `min_count` occurrences, and sort by descending count (stably, like
Python's `sorted` with `reverse=True`). -/
def find_common_schemas (schemas : List NamedSchema) (min_count : Nat) :
    Except String (List CommonSchema) := do
  let fingerprints ← schemas.foldlM groupStep []
  let common := fingerprints.filterMap (groupToCommon min_count)
  .ok (common.foldl (fun acc x => insertByCountDesc x acc) [])

end SchemaDedup

/-! Embedding of `python_zod_openapi/dependencies.py`. -/

namespace Dependencies

/-- The keyword list traversed by `extract_schema_dependencies`. -/
def SCHEMA_TRAVERSE_KEYS : List String :=
  ["items", "oneOf", "allOf", "anyOf", "not",
   "if", "then", "else", "prefixItems", "contains", "propertyNames",
   "dependentSchemas"]

/-- Model of the recursive `traverse` closure: collect `$ref` targets that
point into `#/components/schemas/`.  A dict with a string `$ref` is not
descended into.  Fueled; the entry point passes the schema's size, which
bounds the recursion depth.  (The Python identity-based `visited` set only
guards aliased subtrees, which do not exist in tree-shaped JSON values.) -/
def traverse : Nat → JValue → List String
  | 0, _ => []
  | fuel + 1, .arr items => (items.map (traverse fuel)).join
  | fuel + 1, .obj fields =>
      (match objGet fields "$ref" with
      | some (.str ref) =>
          (match strSplitOn ref "#/components/schemas/" with
          | [_, target] => if target ≠ "" then [pyUnquote target] else []
          | _ => [])
      | _ =>
          let fromProps :=
            match objGet fields "properties" with
            | some (.obj props) => (props.map (fun p => traverse fuel p.2)).join
            | _ => []
          let fromKeys :=
            (SCHEMA_TRAVERSE_KEYS.map (fun k =>
              match objGet fields k with
              | some v => traverse fuel v
              | none => [])).join
          let fromAdditional :=
            match objGet fields "additionalProperties" with
            | some (.obj additional) => traverse fuel (.obj additional)
            | _ => []
          let fromDiscriminator :=
            match objGet fields "discriminator" with
            | some (.obj discriminator) =>
                match objGet discriminator "mapping" with
                | some (.obj mapping) =>
                    (mapping.map (fun p => traverse fuel p.2)).join
                | _ => []
            | _ => []
          fromProps ++ fromKeys ++ fromAdditional ++ fromDiscriminator)
  | _ + 1, _ => []

/-- Model of `extract_schema_dependencies` (the Python function returns
`list(dependencies)` of a set; we keep first-occurrence order). -/
def extract_schema_dependencies (schema : JValue) : List String :=
  dedupFirst (traverse (JValue.size schema) schema)

/-- One step of the loop building the `dependencies` and `dependents` maps in
`topological_sort_schemas`. -/
def buildDepsStep (schemas : List (String × JValue))
    (acc : List (String × List String) × List (String × List String))
    (entry : String × JValue) :
    List (String × List String) × List (String × List String) :=
  let deps := extract_schema_dependencies entry.2
  let valid_deps := deps.filter (fun dep => dictHasKey schemas dep)
  let dependencies := dictSet acc.1 entry.1 valid_deps
  let dependents := valid_deps.foldl
    (fun dm dep => dictSet dm dep (dictGetD dm dep [] ++ [entry.1])) acc.2
  (dependencies, dependents)

/-- Decrement the in-degree of every dependent of the popped name, collecting
the names whose in-degree reaches zero, in iteration order. -/
def decrementAll (deps : List String) (in_degree : List (String × Int)) :
    List (String × Int) × List String :=
  match deps with
  | [] => (in_degree, [])
  | d :: rest =>
      let v := dictGetD in_degree d 0 - 1
      let in_degree' := dictSet in_degree d v
      let (in_degree'', newly) := decrementAll rest in_degree'
      if v = 0 then (in_degree'', d :: newly) else (in_degree'', newly)

/-- Sum of the positive parts of the in-degree table: together with the queue
length this is the strictly decreasing measure of the Kahn `while` loop. -/
def depSum (m : List (String × Int)) : Nat := (m.map (fun p => p.2.toNat)).sum

/-- The Kahn queue loop of `topological_sort_schemas`.  Fueled by its
termination measure `depSum in_degree + queue.length`, which the entry point
supplies (each iteration pops one queue element and decrements only positive
in-degrees, so the measure strictly decreases). -/
def kahnLoop (dependents : List (String × List String)) :
    Nat → List (String × Int) → List String → List String → List String
  | 0, _, _, sorted_names => sorted_names
  | fuel + 1, in_degree, queue, sorted_names =>
      match queue with
      | [] => sorted_names
      | current :: rest =>
          let step := decrementAll (dictGetD dependents current []) in_degree
          kahnLoop dependents fuel step.1 (rest ++ step.2) (sorted_names ++ [current])

/-- The `dependencies` and `dependents` maps built by the first loop of
`topological_sort_schemas`. -/
def depMaps (schemas : List (String × JValue)) :
    List (String × List String) × List (String × List String) :=
  let schema_names := schemas.map Prod.fst
  let initDependencies := schema_names.map (fun n => (n, ([] : List String)))
  let initDependents := schema_names.map (fun n => (n, ([] : List String)))
  schemas.foldl (buildDepsStep schemas) (initDependencies, initDependents)

/-- The `in_degree` table of `topological_sort_schemas` after the second
loop. -/
def inDegreeInit (schemas : List (String × JValue)) : List (String × Int) :=
  let in_degree0 : List (String × Int) :=
    (schemas.map Prod.fst).map (fun n => (n, (0 : Int)))
  (depMaps schemas).1.foldl
    (fun acc p => dictSet acc p.1 ((p.2.length : Int))) in_degree0

/-- The initial Kahn queue: names of in-degree zero, in table order. -/
def initQueue (schemas : List (String × JValue)) : List String :=
  ((inDegreeInit schemas).filter (fun p => p.2 == 0)).map Prod.fst

/-- The names emitted by the Kahn `while` loop, in emission order. -/
def kahnSorted (schemas : List (String × JValue)) : List String :=
  kahnLoop (depMaps schemas).2
    (depSum (inDegreeInit schemas) + (initQueue schemas).length)
    (inDegreeInit schemas) (initQueue schemas) []

/-- Model of `topological_sort_schemas`: Kahn's algorithm with a FIFO queue,
then any names blocked by a cycle appended in declaration order. -/
def topological_sort_schemas (schemas : List (String × JValue)) : List String :=
  let schema_names := schemas.map Prod.fst
  let sorted_names := kahnSorted schemas
  if sorted_names.length ≠ schema_names.length then
    schema_names.foldl (fun acc n => if acc.contains n then acc else acc ++ [n])
      sorted_names
  else sorted_names

/-- The per-name local dependencies used by `topological_sort_schemas`:
the extracted dependencies restricted to names of the schemas map. -/
def localDeps (schemas : List (String × JValue)) (name : String) : List String :=
  match dictGet schemas name with
  | some s => (extract_schema_dependencies s).filter (fun dep => dictHasKey schemas dep)
  | none => []

/-- One local dependency edge: `a`'s schema references `b` locally. -/
def depEdge (schemas : List (String × JValue)) (a b : String) : Prop :=
  b ∈ localDeps schemas a

/-- A name lies on a dependency cycle when some nonempty edge path returns
to it. -/
def onCycle (schemas : List (String × JValue)) (a : String) : Prop :=
  Relation.TransGen (depEdge schemas) a a

end Dependencies

/-! Embedding of `python_zod_openapi/registry.py`. -/

namespace Registry

/-- The supported string formats. -/
def SUPPORTED_STRING_FORMATS : List String :=
  ["color-hex", "date", "date-time", "email", "iso-date", "iso-date-time",
   "objectid", "uri", "url", "uuid"]

/-- Model of the `PydanticOpenApiRegistration` typed dicts: the common field
set, with `format`/`formats` as arbitrary JSON values so that ill-typed
runtime dicts are representable. -/
structure PydanticOpenApiRegistration where
  schema_exported_variable_name : String
  type : String
  format : Option JValue
  formats : Option JValue
  description : Option String

/-- Model of the mutable state of a `PydanticSchemaRegistry` instance.
Schema objects are identified by an abstract `id` (a number), mirroring
CPython's `id()`. -/
structure PydanticSchemaRegistry where
  string_format_to_name : List (String × String)
  primitive_type_to_name : List (String × String)
  schema_ids : List (Nat × PydanticOpenApiRegistration)

/-- A freshly constructed registry. -/
def emptyRegistry : PydanticSchemaRegistry := ⟨[], [], []⟩

/-- Model of `PydanticSchemaRegistry._register_string_format`.  Note the
Python code tests `if existing and existing != name:`, so an existing
empty-string alias never conflicts. -/
def _register_string_format (st : PydanticSchemaRegistry) (fmt : String)
    (registration : PydanticOpenApiRegistration) :
    Except String PydanticSchemaRegistry :=
  if !SUPPORTED_STRING_FORMATS.contains fmt then
    .error ("unsupported string format registration: " ++ pyReprStr fmt)
  else
    let name := registration.schema_exported_variable_name
    match dictGet st.string_format_to_name fmt with
    | some existing =>
        if existing ≠ "" && existing ≠ name then
          .error ("duplicate Pydantic OpenAPI registration for (type, format)=('string', '"
            ++ fmt ++ "')")
        else
          .ok { st with string_format_to_name := dictSet st.string_format_to_name fmt name }
    | none =>
        .ok { st with string_format_to_name := dictSet st.string_format_to_name fmt name }

/-- The loop over a `formats` list inside `register`: non-string items are
skipped, string items are registered in order. -/
def registerFormatsLoop (registration : PydanticOpenApiRegistration) :
    List JValue → PydanticSchemaRegistry → Except String PydanticSchemaRegistry
  | [], st => .ok st
  | item :: rest, st =>
      match item with
      | .str s => do
          let st' ← _register_string_format st s registration
          registerFormatsLoop registration rest st'
      | _ => registerFormatsLoop registration rest st

/-- The tail of `register` reached when the string branch does not return:
primitive registration, or the unsupported-type error. -/
def registerPrimitiveOrFail (st : PydanticSchemaRegistry) (schemaId : Nat)
    (registration : PydanticOpenApiRegistration) :
    Except String PydanticSchemaRegistry :=
  let reg_type := registration.type
  if reg_type = "number" ∨ reg_type = "integer" ∨ reg_type = "boolean" then
    let name := registration.schema_exported_variable_name
    match dictGet st.primitive_type_to_name reg_type with
    | some existing =>
        if existing ≠ "" && existing ≠ name then
          .error ("duplicate Pydantic OpenAPI registration for type '" ++ reg_type ++ "'")
        else
          .ok { st with
            primitive_type_to_name := dictSet st.primitive_type_to_name reg_type name,
            schema_ids := dictSet st.schema_ids schemaId registration }
    | none =>
        .ok { st with
          primitive_type_to_name := dictSet st.primitive_type_to_name reg_type name,
          schema_ids := dictSet st.schema_ids schemaId registration }
  else .error "unsupported registration type"

/-- Model of `PydanticSchemaRegistry.register`. -/
def register (st : PydanticSchemaRegistry) (schemaId : Nat)
    (registration : PydanticOpenApiRegistration) :
    Except String PydanticSchemaRegistry :=
  if registration.type = "string" then
    match registration.format with
    | some (.str format_value) => do
        let st' ← _register_string_format st format_value registration
        .ok { st' with schema_ids := dictSet st'.schema_ids schemaId registration }
    | _ =>
        match registration.formats with
        | some (.arr format_values) => do
            let st' ← registerFormatsLoop registration format_values st
            .ok { st' with schema_ids := dictSet st'.schema_ids schemaId registration }
        | _ => registerPrimitiveOrFail st schemaId registration
  else registerPrimitiveOrFail st schemaId registration

/-- Model of `PydanticSchemaRegistry.clear`: all three tables emptied. -/
def clear (_ : PydanticSchemaRegistry) : PydanticSchemaRegistry := ⟨[], [], []⟩

/-- Model of `get_schema_exported_variable_name_for_string_format`. -/
def get_schema_exported_variable_name_for_string_format
    (st : PydanticSchemaRegistry) (format_value : String) : Option String :=
  if !SUPPORTED_STRING_FORMATS.contains format_value then none
  else dictGet st.string_format_to_name format_value

/-- Model of `get_schema_exported_variable_name_for_primitive_type`. -/
def get_schema_exported_variable_name_for_primitive_type
    (st : PydanticSchemaRegistry) (type_value : String) : Option String :=
  dictGet st.primitive_type_to_name type_value

/-- Model of `PydanticSchemaRegistry.is_registered`. -/
def is_registered (st : PydanticSchemaRegistry) (schemaId : Nat) : Bool :=
  dictHasKey st.schema_ids schemaId

end Registry

/-! Embedding of `python_zod_openapi/type_render.py` and the converters under
`python_zod_openapi/types/`. -/

namespace Types

/-- Model of `type_render.wrap_annotated`. -/
def wrap_annotated (base : String) (metadata : List String) : String :=
  if metadata.isEmpty then base
  else "Annotated[" ++ base ++ ", " ++ String.intercalate ", " metadata ++ "]"

/-- Model of `_format_openapi_meta` (the source repeats this helper verbatim
in the `string`, `number`, `array` and `union` modules): the metadata dict is
key-sorted and rendered with Python `repr`. -/
def _format_openapi_meta (meta : List (String × JValue)) : String :=
  let ordered := JValue.obj (sortFieldsByKey meta)
  "json_schema_extra=\x7b'openapi': " ++ pyRepr (JValue.size ordered) ordered ++ "\x7d"

/-- Python `isinstance(v, int)` (CPython counts `bool` as `int`; JSON floats
are outside the modelled fragment). -/
def pyIsIntLike : JValue → Bool
  | .num _ => true
  | .bool b => Bool.rec true true b
  | _ => false

/-- Python `str`/f-string rendering of an int-like value. -/
def pyIntStr : JValue → String
  | .num n => pyReprInt n
  | .bool b => if b then "True" else "False"
  | _ => ""

/-- Model of `string.convert_openapi_string_to_pydantic`. -/
def convert_openapi_string_to_pydantic (st : Registry.PydanticSchemaRegistry)
    (schema : JValue) : String :=
  match jGet schema "enum" with
  | some (.arr values) =>
      "Literal[" ++ String.intercalate ", "
        (values.map (fun v => pyRepr (JValue.size v) v)) ++ "]"
  | _ =>
    let fmt : Option String :=
      match jGet schema "format" with
      | some (.str f) => if f ≠ "" then some f else none
      | _ => none
    let custom : Option String :=
      match fmt with
      | some f =>
          match Registry.get_schema_exported_variable_name_for_string_format st f with
          | some alias_name => if alias_name ≠ "" then some alias_name else none
          | none => none
      | none => none
    match custom with
    | some custom_schema => custom_schema
    | none =>
      let base :=
        if fmt = some "email" then "EmailStr"
        else if fmt = some "url" ∨ fmt = some "uri" then "AnyUrl"
        else if fmt = some "uuid" then "UUID"
        else "str"
      let min_length := jGet schema "minLength"
      let max_length := jGet schema "maxLength"
      let pattern0 := jGet schema "pattern"
      let pattern_is_explicit := match pattern0 with
        | some (.str _) => true
        | _ => false
      let pattern : Option JValue :=
        if fmt = some "color-hex" && !pattern_is_explicit then
          some (.str "^[a-fA-F0-9]\x7b6\x7d$")
        else pattern0
      let field_args : List String :=
        (if base = "str" then ["strict=True"] else []) ++
        (match min_length with
          | some v => if pyIsIntLike v then ["min_length=" ++ pyIntStr v] else []
          | none => []) ++
        (match max_length with
          | some v => if pyIsIntLike v then ["max_length=" ++ pyIntStr v] else []
          | none => []) ++
        (match pattern with
          | some (.str p) => ["pattern=" ++ pyReprStr p]
          | _ => [])
      let meta : List (String × JValue) :=
        (match fmt with
          | some f => [("format", .str f)]
          | none => []) ++
        (match pattern with
          | some (.str p) => if pattern_is_explicit then [("pattern", .str p)] else []
          | _ => []) ++
        (match min_length with
          | some v => if pyIsIntLike v then [("minLength", v)] else []
          | none => []) ++
        (match max_length with
          | some v => if pyIsIntLike v then [("maxLength", v)] else []
          | none => [])
      let field_args :=
        if meta.isEmpty then field_args
        else field_args ++ [_format_openapi_meta meta]
      if field_args.isEmpty then base
      else wrap_annotated base ["Field(" ++ String.intercalate ", " field_args ++ ")"]

/-- Model of `number.convert_openapi_number_to_pydantic`. -/
def convert_openapi_number_to_pydantic (st : Registry.PydanticSchemaRegistry)
    (schema : JValue) : String :=
  match jGet schema "enum" with
  | some (.arr values) =>
      "Literal[" ++ String.intercalate ", "
        (values.map (fun v => pyRepr (JValue.size v) v)) ++ "]"
  | _ =>
    let schema_type := jGet schema "type"
    let custom : Option String :=
      match schema_type with
      | some (.str t) =>
          if t = "number" ∨ t = "integer" ∨ t = "boolean" then
            match Registry.get_schema_exported_variable_name_for_primitive_type st t with
            | some alias_name => if alias_name ≠ "" then some alias_name else none
            | none => none
          else none
      | _ => none
    match custom with
    | some custom_schema => custom_schema
    | none =>
      let base := match schema_type with
        | some (.str "integer") => "int"
        | _ => "float"
      let minimum := jGet schema "minimum"
      let maximum := jGet schema "maximum"
      let field_args : List String :=
        ["strict=True"] ++
        (match minimum with
          | some v => if pyIsIntLike v then ["ge=" ++ pyIntStr v] else []
          | none => []) ++
        (match maximum with
          | some v => if pyIsIntLike v then ["le=" ++ pyIntStr v] else []
          | none => [])
      let meta : List (String × JValue) :=
        (match minimum with
          | some v => if pyIsIntLike v then [("minimum", v)] else []
          | none => []) ++
        (match maximum with
          | some v => if pyIsIntLike v then [("maximum", v)] else []
          | none => [])
      let field_args :=
        if meta.isEmpty then field_args
        else field_args ++ [_format_openapi_meta meta]
      wrap_annotated base ["Field(" ++ String.intercalate ", " field_args ++ ")"]

/-- Model of `boolean.convert_openapi_boolean_to_pydantic`. -/
def convert_openapi_boolean_to_pydantic (st : Registry.PydanticSchemaRegistry)
    (_schema : JValue) : String :=
  match Registry.get_schema_exported_variable_name_for_primitive_type st "boolean" with
  | some custom => if custom ≠ "" then custom
      else wrap_annotated "bool" ["Field(strict=True)"]
  | none => wrap_annotated "bool" ["Field(strict=True)"]

/-- Model of `array.convert_openapi_array_to_pydantic` (the recursive
`convert_schema` callback is passed in, as in the source). -/
def convert_openapi_array_to_pydantic (schema : JValue)
    (convert_schema : JValue → String) : String :=
  let items := jGet schema "items"
  let item_type := match items with
    | some (.obj fields) => convert_schema (.obj fields)
    | _ => "Any"
  let base := "list[" ++ item_type ++ "]"
  let min_items := jGet schema "minItems"
  let max_items := jGet schema "maxItems"
  let field_args : List String :=
    (match min_items with
      | some v => if pyIsIntLike v then ["min_length=" ++ pyIntStr v] else []
      | none => []) ++
    (match max_items with
      | some v => if pyIsIntLike v then ["max_length=" ++ pyIntStr v] else []
      | none => [])
  let meta : List (String × JValue) :=
    (match min_items with
      | some v => if pyIsIntLike v then [("minItems", v)] else []
      | none => []) ++
    (match max_items with
      | some v => if pyIsIntLike v then [("maxItems", v)] else []
      | none => [])
  let field_args :=
    if meta.isEmpty then field_args
    else field_args ++ [_format_openapi_meta meta]
  if field_args.isEmpty then base
  else wrap_annotated base ["Field(" ++ String.intercalate ", " field_args ++ ")"]

/-- Model of `object.convert_openapi_object_to_pydantic`. -/
def convert_openapi_object_to_pydantic (schema : JValue)
    (convert_schema : JValue → String) : String :=
  let properties := jGet schema "properties"
  let additional := jGet schema "additionalProperties"
  let propsTruthy := match properties with
    | some v => pyTruthy v
    | none => false
  let additionalTruthy := match additional with
    | some v => pyTruthy v
    | none => false
  if !propsTruthy && !additionalTruthy then "dict[str, Any]"
  else
    match additional with
    | some (.obj fields) => "dict[str, " ++ convert_schema (.obj fields) ++ "]"
    | _ => "dict[str, Any]"

/-- Model of `union.convert_openapi_union_to_pydantic`: reads `oneOf` only. -/
def convert_openapi_union_to_pydantic (schema : JValue)
    (convert_schema : JValue → String) : String :=
  match jGet schema "oneOf" with
  | some (.arr items) =>
      let item_types := (items.filter (fun i => match i with
        | .obj _ => true
        | _ => false)).map convert_schema
      if item_types.isEmpty then "Any"
      else
        let union_expr :=
          if 1 < item_types.length then
            "Union[" ++ String.intercalate ", " item_types ++ "]"
          else item_types.headD ""
        let discriminator := jGet schema "discriminator"
        let field_args : List String :=
          match discriminator with
          | some (.obj discFields) =>
              (match objGet discFields "propertyName" with
              | some (.str property_name) =>
                  if property_name ≠ "" then
                    ["discriminator=" ++ pyReprStr property_name]
                  else []
              | _ => [])
          | _ => []
        let meta : List (String × JValue) :=
          match discriminator with
          | some (.obj discFields) =>
              (match objGet discFields "propertyName" with
              | some (.str property_name) =>
                  if property_name ≠ "" then
                    [("discriminator", .obj discFields)]
                  else []
              | _ => [])
          | _ => []
        let field_args :=
          if meta.isEmpty then field_args
          else field_args ++ [_format_openapi_meta meta]
        if field_args.isEmpty then union_expr
        else wrap_annotated union_expr ["Field(" ++ String.intercalate ", " field_args ++ ")"]
  | _ => "Any"

/-- Model of `intersection.convert_openapi_intersection_to_pydantic`. -/
def convert_openapi_intersection_to_pydantic (schema : JValue)
    (convert_schema : JValue → String) : String :=
  match jGet schema "allOf" with
  | some (.arr items) =>
      let parts := (items.filter (fun i => match i with
        | .obj _ => true
        | _ => false)).map convert_schema
      if parts.isEmpty then "Any"
      else if parts.length = 1 then parts.headD ""
      else "all_of(" ++ String.intercalate ", " parts ++ ")"
  | _ => "Any"

end Types

/-! Embedding of `python_zod_openapi/routes.py`. -/

namespace Routes

/-- Model of the `RouteParameter` dataclass. -/
structure RouteParameter where
  name : String
  location : String
  required : Bool
  schema : JValue

/-- Model of the `RouteInfo` dataclass. -/
structure RouteInfo where
  path : String
  method : String
  parameters : List RouteParameter
  request_body : Option JValue
  responses : List (String × JValue)

/-- Model of the `RouteSchemaNames` dataclass. -/
structure RouteSchemaNames where
  params_schema_name : Option String
  query_schema_name : Option String
  headers_schema_name : Option String
  body_schema_name : Option String
  response_schema_name : Option String

/-- The recognized verbs, uppercased. -/
def UPPER_METHODS : List String :=
  ["GET", "POST", "PUT", "PATCH", "DELETE", "HEAD", "OPTIONS"]

/-- Model of `_to_upper_method`: unrecognized methods map to `GET`. -/
def _to_upper_method (method : String) : String :=
  let upper := pyUpper method
  if UPPER_METHODS.contains upper then upper else "GET"

/-- Model of `routes._to_pascal_case`: non-alphanumeric characters become
spaces, each space-separated part gets its first character uppercased and the
rest lowercased. -/
def _to_pascal_case (value : String) : String :=
  let parts := pySplitWs (String.mk (value.data.map
    (fun c => if pyIsAlnumChar c then c else ' ')))
  String.join (parts.map (fun part => pyUpper (part.take 1) ++ pyLower (part.drop 1)))

/-- Model of `routes._generate_route_schema_name`. -/
def _generate_route_schema_name (path : String) (method : String)
    (suffix : String) : String :=
  let path_parts := (strSplitOn path "/").foldr
    (fun part acc =>
      if part = "" then acc
      else if strStartsWith part "\x7b" && strEndsWith part "\x7d" then
        ((part.drop 1).dropRight 1) :: acc
      else part :: acc) []
  let path_parts := path_parts.map _to_pascal_case
  let methodPart := method.take 1 ++ pyLower (method.drop 1)
  String.join (methodPart :: path_parts ++ [suffix])

/-- Parameters collected from one `parameters` source (path-item level or
operation level). -/
def collectParamsFrom (src : Option JValue) : List RouteParameter :=
  match src with
  | some (.arr params) =>
      params.foldl (fun acc param =>
        match param with
        | .obj p =>
            acc ++ [⟨(match objGet p "name" with
                      | some v => pyStr v
                      | none => ""),
                    (match objGet p "in" with
                      | some v => pyStr v
                      | none => "query"),
                    (match objGet p "required" with
                      | some v => pyTruthy v
                      | none => false),
                    objGetD p "schema" (.obj [])⟩]
        | _ => acc) []
  | _ => []

/-- The request-body extraction of `parse_openapi_paths`: the schema under
the JSON content type; an explicit `null` schema leaves the body absent,
while a missing `schema` key yields an empty dict. -/
def extractRequestBody (operation : List (String × JValue)) : Option JValue :=
  match objGet operation "requestBody" with
  | some (.obj rb) =>
      match objGet rb "content" with
      | some (.obj content) =>
          match objGet content "application/json" with
          | some (.obj json_content) =>
              match objGet json_content "schema" with
              | none => some (.obj [])
              | some .null => none
              | some v => some v
          | _ => none
      | _ => none
  | _ => none

/-- The responses extraction of `parse_openapi_paths`: JSON-content schemas
keyed by status code, skipping absent/null schemas. -/
def extractResponses (operation : List (String × JValue)) : List (String × JValue) :=
  match objGet operation "responses" with
  | some (.obj responses_obj) =>
      responses_obj.foldl (fun acc p =>
        match p.2 with
        | .obj response =>
            (match objGet response "content" with
            | some (.obj content) =>
                match objGet content "application/json" with
                | some (.obj json_content) =>
                    match objGet json_content "schema" with
                    | none => acc
                    | some .null => acc
                    | some v => dictSet acc (pyStr (.str p.1)) v
                | _ => acc
            | _ => acc)
        | _ => acc) []
  | _ => []

/-- The method keys probed by `parse_openapi_paths`. -/
def METHODS : List String :=
  ["get", "post", "put", "patch", "delete", "head", "options"]

/-- Model of `parse_openapi_paths`: only the seven conventional lowercase
verbs are probed; other keys of a path item are never looked at. -/
def parse_openapi_paths (openapi : JValue) : List RouteInfo :=
  match jGet openapi "paths" with
  | some (.obj paths) =>
      paths.foldl (fun routes pathEntry =>
        match pathEntry.2 with
        | .obj path_item =>
            METHODS.foldl (fun routes method =>
              match objGet path_item method with
              | some (.obj operation) =>
                  let parameters :=
                    collectParamsFrom (objGet path_item "parameters") ++
                    collectParamsFrom (objGet operation "parameters")
                  routes ++ [⟨pathEntry.1, _to_upper_method method, parameters,
                    extractRequestBody operation, extractResponses operation⟩]
              | _ => routes) routes
        | _ => routes) []
  | _ => []

/-- Model of `generate_route_schema_names`. -/
def generate_route_schema_names (route : RouteInfo) : RouteSchemaNames :=
  let path_params := route.parameters.filter (fun p => p.location = "path")
  let query_params := route.parameters.filter (fun p => p.location = "query")
  let header_params := route.parameters.filter (fun p => p.location = "header")
  let success_statuses := (route.responses.map Prod.fst).filter
    (fun status => strStartsWith status "2")
  { response_schema_name :=
      if !success_statuses.isEmpty then
        some (_generate_route_schema_name route.path route.method "Response")
      else none,
    params_schema_name :=
      if !path_params.isEmpty then
        some (_generate_route_schema_name route.path route.method "Params")
      else none,
    query_schema_name :=
      if !query_params.isEmpty then
        some (_generate_route_schema_name route.path route.method "Query")
      else none,
    headers_schema_name :=
      if !header_params.isEmpty then
        some (_generate_route_schema_name route.path route.method "Headers")
      else none,
    body_schema_name :=
      if route.request_body.isSome then
        some (_generate_route_schema_name route.path route.method "Body")
      else none }

end Routes

/-! Embedding of `python_zod_openapi/utils.py` (the part used by
`to_python.py`). -/

namespace Utils

/-- Model of `utils.to_pascal_case`: split on runs of non-alphanumeric
characters, uppercase each part's first character and keep the rest. -/
def to_pascal_case (value : String) : String :=
  let parts := (strSplitPred value (fun c => !pyIsAlnumChar c)).filter
    (fun part => !part.isEmpty)
  String.join (parts.map (fun part => pyUpper (part.take 1) ++ part.drop 1))

end Utils

/-! Embedding of `python_zod_openapi/to_python.py`. -/

namespace ToPython

/-- Model of `_decode_ref_name`. -/
def _decode_ref_name (ref : String) : String :=
  if strStartsWith ref "#/components/schemas/" then
    pyUnquote ((strSplitOn ref "#/components/schemas/").getD 1 "")
  else ref

/-- Model of `_wrap_nullable`: wrap in `Optional[...]` exactly when
`nullable` is the boolean `True`. -/
def _wrap_nullable (expr : String) (schema : JValue) : String :=
  match jGet schema "nullable" with
  | some (.bool true) => "Optional[" ++ expr ++ "]"
  | _ => expr

/-- Model of `_schema_to_type_expr`: the recursive type-expression
synthesizer.  Fueled; entry points pass the schema's size. -/
def _schema_to_type_expr (st : Registry.PydanticSchemaRegistry) :
    Nat → JValue → String
  | 0, _ => "Any"
  | fuel + 1, schema =>
      match schema with
      | .obj fields =>
          (match objGet fields "$ref" with
          | some (.str ref) =>
              if !strStartsWith ref "#/components/schemas/" then
                _wrap_nullable "Any" schema
              else _wrap_nullable (_decode_ref_name ref) schema
          | _ =>
            match objGet fields "oneOf" with
            | some (.arr _) =>
                _wrap_nullable
                  (Types.convert_openapi_union_to_pydantic schema
                    (_schema_to_type_expr st fuel)) schema
            | _ =>
              match objGet fields "allOf" with
              | some (.arr _) =>
                  _wrap_nullable
                    (Types.convert_openapi_intersection_to_pydantic schema
                      (_schema_to_type_expr st fuel)) schema
              | _ =>
                let typeIs := fun (t : String) =>
                  match objGet fields "type" with
                  | some (.str u) => u == t
                  | _ => false
                if typeIs "string" then
                  _wrap_nullable (Types.convert_openapi_string_to_pydantic st schema) schema
                else if typeIs "number" || typeIs "integer" then
                  _wrap_nullable (Types.convert_openapi_number_to_pydantic st schema) schema
                else if typeIs "boolean" then
                  _wrap_nullable (Types.convert_openapi_boolean_to_pydantic st schema) schema
                else if typeIs "array" then
                  _wrap_nullable
                    (Types.convert_openapi_array_to_pydantic schema
                      (_schema_to_type_expr st fuel)) schema
                else if typeIs "object" || objHasKey fields "properties" then
                  _wrap_nullable
                    (Types.convert_openapi_object_to_pydantic schema
                      (_schema_to_type_expr st fuel)) schema
                else
                  match objGet fields "enum" with
                  | some (.arr values) =>
                      _wrap_nullable ("Literal[" ++ String.intercalate ", "
                        (values.map (fun v => pyRepr (JValue.size v) v)) ++ "]") schema
                  | _ => _wrap_nullable "Any" schema)
      | _ => "Any"

/-- Model of `_is_freeform_object`. -/
def _is_freeform_object (schema : JValue) : Bool :=
  match schema with
  | .obj fields =>
      let typeIsObject := match objGet fields "type" with
        | some (.str "object") => true
        | _ => false
      if !typeIsObject && !objHasKey fields "properties" then false
      else
        let propsTruthy := match objGet fields "properties" with
          | some v => pyTruthy v
          | none => false
        let additionalIsFalse := match objGet fields "additionalProperties" with
          | some (.bool false) => true
          | _ => false
        !propsTruthy && !additionalIsFalse
  | _ => false

/-- Model of `_should_inline_object_model`. -/
def _should_inline_object_model (schema : JValue) : Bool :=
  match schema with
  | .obj fields =>
      let truthyAt := fun (k : String) =>
        match objGet fields k with
        | some v => pyTruthy v
        | none => false
      if truthyAt "$ref" || truthyAt "oneOf" || truthyAt "allOf" then false
      else
        let typeIsObject := match objGet fields "type" with
          | some (.str "object") => true
          | _ => false
        if !typeIsObject && !objHasKey fields "properties" then false
        else if _is_freeform_object schema then false
        else true
  | _ => false

/-- The character set `_VALID_IDENTIFIER_CHARS` of `to_python.py`. -/
def validIdentifierChar (c : Char) : Bool := c = '_' || pyIsAlnumChar c

/-- Model of `_sanitize_identifier`. -/
def _sanitize_identifier (name : String) : String :=
  let result := String.mk (name.data.map
    (fun c => if validIdentifierChar c then c else '_'))
  let result := match result.data with
    | c :: rest =>
        if pyIsUpperChar c && pyStrIsLower (String.mk rest) then
          String.mk (pyLowerChar c :: rest)
        else result
    | [] => result
  let result :=
    if result.isEmpty ||
        (match result.data with
          | c :: _ => pyIsDigitChar c
          | [] => false) then "_" ++ result
    else result
  if pyIsKeyword result then result ++ "_" else result

/-- The `while` loop of `_dedupe_name`, searching the first free index; the
fuel `used.length + 1` is enough by pigeonhole. -/
def dedupeLoop (name : String) (used : List String) : Nat → Nat → Nat
  | 0, index => index
  | fuel + 1, index =>
      if used.contains (name ++ "_" ++ toString index) then
        dedupeLoop name used fuel (index + 1)
      else index

/-- Model of `_dedupe_name`: returns the chosen name together with the
updated `used` set (the Python function mutates the set in place). -/
def _dedupe_name (name : String) (used : List String) : String × List String :=
  if !used.contains name then (name, used ++ [name])
  else
    let index := dedupeLoop name used (used.length + 1) 2
    let deduped := name ++ "_" ++ toString index
    (deduped, used ++ [deduped])

/-- Model of `set(x)` applied to the `required` value in
`_generate_model_lines`: lists of hashable values, strings (iterated as
characters) and dicts (iterated as keys) are iterable; numbers, booleans and
`None` raise `TypeError`, as does a list holding an unhashable element. -/
def pyRequiredSet : JValue → Except String (List JValue)
  | .arr xs =>
      if xs.any (fun x => match x with
        | .arr _ => true
        | .obj _ => true
        | _ => false) then .error "TypeError: unhashable type"
      else .ok xs
  | .str s => .ok (s.data.map (fun c => .str (String.singleton c)))
  | .obj fields => .ok (fields.map (fun p => .str p.1))
  | .null => .error "TypeError: 'NoneType' object is not iterable"
  | .bool _ => .error "TypeError: 'bool' object is not iterable"
  | .num _ => .error "TypeError: 'int' object is not iterable"

/-- Model of `_generate_model_lines`.  The unguarded `set(schema.get(
"required", []))` is the one raising site: a non-iterable `required` value
propagates a `TypeError`. -/
def _generate_model_lines (st : Registry.PydanticSchemaRegistry) (fuel : Nat)
    (name : String) (schema : JValue) (base_classes : Option (List String)) :
    Except String (List String) := do
  let properties := match schema with
    | .obj fields => objGet fields "properties"
    | _ => none
  let required ← match schema with
    | .obj fields => pyRequiredSet (objGetD fields "required" (.arr []))
    | _ => pure []
  let additional := match schema with
    | .obj fields => objGet fields "additionalProperties"
    | _ => none
  let bases := match base_classes with
    | some bs => if bs.isEmpty then ["BaseModel"] else bs
    | none => ["BaseModel"]
  let lines := ["class " ++ name ++ "(" ++ String.intercalate ", " bases ++ "):"]
  let step := fun (acc : Bool × List String × List String) (p : String × JValue) =>
    let dd := _dedupe_name (_sanitize_identifier p.1) acc.2.2
    let attr_name := dd.1
    let aliasOpt := if attr_name ≠ p.1 then some p.1 else none
    let type_expr := _schema_to_type_expr st fuel p.2
    let is_required := required.any (fun v => match v with
      | .str s => s = p.1
      | _ => false)
    let default_expr :=
      if is_required then
        match aliasOpt with
        | some a => " = Field(alias=" ++ pyReprStr a ++ ")"
        | none => ""
      else
        match aliasOpt with
        | some a => " = Field(default=None, alias=" ++ pyReprStr a ++ ")"
        | none => " = None"
    (acc.1 || aliasOpt.isSome,
     acc.2.1 ++ ["    " ++ attr_name ++ ": " ++ type_expr ++ default_expr],
     dd.2)
  let res := match properties with
    | some (.obj props) => props.foldl step (false, [], [])
    | _ => (false, [], [])
  let alias_used := res.1
  let field_lines := res.2.1
  let config_args :=
    (if alias_used then ["populate_by_name=True"] else []) ++
    (match additional with
      | some (.bool false) => ["extra='forbid'"]
      | _ => [])
  let lines :=
    if config_args.isEmpty then lines
    else lines ++ ["    model_config = ConfigDict(" ++
      String.intercalate ", " config_args ++ ")"]
  let lines :=
    if field_lines.isEmpty then lines ++ ["    pass"] else lines ++ field_lines
  .ok lines

/-- Accumulated data of the `allOf` scanning loop in
`_emit_schema_definition`. -/
structure AllOfScan where
  base_classes : List String
  inline_properties : List (String × JValue)
  inline_required : List JValue
  additional_false : Bool
  non_object_part : Bool

/-- One step of the `allOf` scanning loop. -/
def allOfScanStep (acc : AllOfScan) (part : JValue) : AllOfScan :=
  match part with
  | .obj partFields =>
      (match objGet partFields "$ref" with
      | some (.str ref) =>
          { acc with base_classes := acc.base_classes ++ [_decode_ref_name ref] }
      | _ =>
          let typeIsObject := match objGet partFields "type" with
            | some (.str "object") => true
            | _ => false
          if typeIsObject || objHasKey partFields "properties" then
            let inline_properties := match objGet partFields "properties" with
              | some (.obj props) =>
                  props.foldl (fun m q => dictSet m q.1 q.2) acc.inline_properties
              | _ => acc.inline_properties
            let inline_required := match objGet partFields "required" with
              | some (.arr required) =>
                  required.foldl (fun lst item =>
                    if lst.any (fun x => x == item) then lst else lst ++ [item])
                    acc.inline_required
              | _ => acc.inline_required
            let additional_false := acc.additional_false ||
              (match objGet partFields "additionalProperties" with
                | some (.bool false) => true
                | _ => false)
            { acc with
                inline_properties := inline_properties
                inline_required := inline_required
                additional_false := additional_false }
          else { acc with non_object_part := true })
  | _ => acc

mutual

/-- Model of `_extract_inline_object_models`: anonymous inline objects among
the property values are hoisted into named nested declarations and replaced
by references (preserving nullability). -/
def _extract_inline_object_models (st : Registry.PydanticSchemaRegistry) :
    Nat → String → JValue → Except String (List String × JValue)
  | 0, _, _ => .error "RecursionError"
  | fuel + 1, parent_name, schema =>
      match schema with
      | .obj fields =>
          (match objGet fields "properties" with
          | some (.obj properties) => do
              let res ← properties.foldlM
                (fun (acc : List String × List (String × JValue)) p => do
                  if !_should_inline_object_model p.2 then pure acc
                  else do
                    let nested_name := parent_name ++ Utils.to_pascal_case p.1
                    let nested ← _emit_schema_definition st fuel nested_name p.2
                    let ref_schema : JValue := .obj
                      ([("$ref", .str ("#/components/schemas/" ++ nested_name))] ++
                        (match p.2 with
                          | .obj pf =>
                              match objGet pf "nullable" with
                              | some (.bool true) => [("nullable", .bool true)]
                              | _ => []
                          | _ => []))
                    pure (acc.1 ++ nested, dictSet acc.2 p.1 ref_schema))
                ([], properties)
              if JValue.beqFields res.2 properties then
                .ok (res.1, schema)
              else
                .ok (res.1, .obj (dictSet fields "properties" (.obj res.2)))
          | _ => .ok ([], schema))
      | _ => .ok ([], schema)

/-- The tail of `_emit_schema_definition` reached when the mergeable-`allOf`
branch does not apply: free-form alias, object model, or type-alias line. -/
def emitSchemaTail (st : Registry.PydanticSchemaRegistry) :
    Nat → String → JValue → Except String (List String)
  | 0, _, _ => .error "RecursionError"
  | fuel + 1, name, schema =>
      if _is_freeform_object schema then
        .ok [name ++ ": TypeAlias = dict[str, Any]",
             name ++ "Schema = TypeAdapter(" ++ name ++ ")", ""]
      else
        match schema with
        | .obj fields =>
            let typeIsObject := match objGet fields "type" with
              | some (.str "object") => true
              | _ => false
            if typeIsObject || objHasKey fields "properties" then do
              let ex ← _extract_inline_object_models st fuel name schema
              let model_lines ← _generate_model_lines st fuel name ex.2 none
              .ok (ex.1 ++ model_lines ++
                [name ++ ".model_rebuild()",
                 name ++ "Schema = TypeAdapter(" ++ name ++ ")", ""])
            else
              .ok [name ++ ": TypeAlias = " ++ _schema_to_type_expr st fuel schema,
                   name ++ "Schema = TypeAdapter(" ++ name ++ ")", ""]
        | _ =>
            .ok [name ++ ": TypeAlias = " ++ _schema_to_type_expr st fuel schema,
                 name ++ "Schema = TypeAdapter(" ++ name ++ ")", ""]

/-- Model of `_emit_schema_definition`. -/
def _emit_schema_definition (st : Registry.PydanticSchemaRegistry) :
    Nat → String → JValue → Except String (List String)
  | 0, _, _ => .error "RecursionError"
  | fuel + 1, name, schema =>
      let allOfParts : Option (List JValue) := match schema with
        | .obj fields =>
            match objGet fields "allOf" with
            | some (.arr parts) => some parts
            | _ => none
        | _ => none
      match allOfParts with
      | some parts =>
          let scan := parts.foldl allOfScanStep ⟨[], [], [], false, false⟩
          if !scan.non_object_part then do
            let merged_schema : JValue := .obj
              ([("type", .str "object"),
                ("properties", .obj scan.inline_properties),
                ("required", .arr scan.inline_required)] ++
               (if scan.additional_false then [("additionalProperties", .bool false)]
                else []))
            let ex ← _extract_inline_object_models st fuel name merged_schema
            let model_lines ← _generate_model_lines st fuel name ex.2
              (if scan.base_classes.isEmpty then none else some scan.base_classes)
            let allOfRepr := pyRepr (JValue.size (.arr parts)) (.arr parts)
            let model_lines := match model_lines with
              | l0 :: restLines =>
                  l0 :: ("    __openapi_allof__ = " ++ allOfRepr) :: restLines
              | [] => ["    __openapi_allof__ = " ++ allOfRepr]
            .ok (ex.1 ++ model_lines ++
              [name ++ ".model_rebuild()",
               name ++ "Schema = TypeAdapter(" ++ name ++ ")", ""])
          else emitSchemaTail st fuel name schema
      | none => emitSchemaTail st fuel name schema

end

/-- Entry point instantiating `_emit_schema_definition`'s fuel with the
schema's size (a bound on the inline-hoisting recursion depth). -/
def emit_schema_definition_top (st : Registry.PydanticSchemaRegistry)
    (name : String) (schema : JValue) : Except String (List String) :=
  _emit_schema_definition st (JValue.size schema + 1) name schema

/-- Model of `_emit_schema_alias`. -/
def _emit_schema_alias (name : String) (canonical : String) : List String :=
  [name ++ " = " ++ canonical,
   name ++ "Schema = " ++ canonical ++ "Schema"]

/-- Model of `to_python._generate_route_schema_name` (distinct from the
`routes.py` function of the same name): strips braces, turns `-`/`_` into
word breaks and capitalizes words. -/
def _generate_route_schema_name (path : String) (method : String)
    (suffix : String) : String :=
  let stripBraces := fun (s : String) =>
    let isBrace := fun (c : Char) => c = '\x7b' || c = '\x7d'
    String.mk (((s.data.dropWhile isBrace).reverse.dropWhile isBrace).reverse)
  let parts := (strSplitOn path "/").filterMap (fun segment =>
    if segment = "" then none
    else some (strReplaceChar (strReplaceChar (stripBraces segment) '-' ' ') '_' ' '))
  let pascal_parts := parts.map (fun part =>
    String.join ((pySplitWs part).map pyCapitalize))
  let methodPart := method.take 1 ++ pyLower (method.drop 1)
  String.join (methodPart :: pascal_parts ++ [suffix])

/-- Model of `_collect_route_schemas`: every truthy response schema of every
route is collected, suffixed `Response` for `2xx` status codes and
`ErrorResponse` otherwise. -/
def _collect_route_schemas (routes : List Routes.RouteInfo) :
    List SchemaDedup.NamedSchema :=
  routes.foldl (fun collected route =>
    route.responses.foldl (fun collected p =>
      if !pyTruthy p.2 then collected
      else
        let suffix := if strStartsWith p.1 "2" then "Response" else "ErrorResponse"
        collected ++ [⟨_generate_route_schema_name route.path route.method
          (p.1 ++ suffix), p.2⟩]) collected) []

/-- One synthetic parameter entry fed to `_build_openapi_object_schema`. -/
structure BuildParam where
  name : String
  schema : JValue
  required : Bool

/-- Model of `_build_openapi_object_schema`. -/
def _build_openapi_object_schema (params : List BuildParam) : JValue :=
  .obj [("type", .str "object"),
        ("properties", .obj (params.foldl (fun m p => dictSet m p.name p.schema) [])),
        ("required", .arr ((params.filter (fun p => p.required)).map
          (fun p => .str p.name)))]

/-- The mutable state of `_generate_route_schemas`: the dedup registry, the
accumulated declarations and the name→canonical map. -/
structure RouteGenState where
  registry : SchemaDedup.SchemaRegistry
  declarations : List String
  schema_name_to_canonical : List (String × String)

/-- Model of the `register_and_emit` closure: new fingerprints emit a full
declaration; duplicates emit an alias pair when the name differs from the
canonical one, and nothing otherwise. -/
def register_and_emit (st : Registry.PydanticSchemaRegistry)
    (state : RouteGenState) (schema_name : String) (schema : JValue) :
    Except String RouteGenState := do
  let rr := SchemaDedup.register_schema state.registry schema_name schema
  let map := dictSet state.schema_name_to_canonical schema_name rr.2.canonical_name
  if rr.2.is_new then do
    let decl ← emit_schema_definition_top st schema_name schema
    .ok ⟨rr.1, state.declarations ++ decl, map⟩
  else if schema_name ≠ rr.2.canonical_name then
    .ok ⟨rr.1, state.declarations ++
      _emit_schema_alias schema_name rr.2.canonical_name ++ [""], map⟩
  else
    .ok ⟨rr.1, state.declarations, map⟩

/-- Processing of one route inside `_generate_route_schemas`. -/
def routeStep (st : Registry.PydanticSchemaRegistry)
    (state : RouteGenState) (route : Routes.RouteInfo) :
    Except String RouteGenState := do
  let names := Routes.generate_route_schema_names route
  let path_params := route.parameters.filter (fun p => p.location = "path")
  let query_params := route.parameters.filter (fun p => p.location = "query")
  let header_params := route.parameters.filter (fun p => p.location = "header")
  let state ← match names.params_schema_name with
    | some n =>
        if n ≠ "" && !path_params.isEmpty then
          register_and_emit st state n (_build_openapi_object_schema
            (path_params.map (fun p => ⟨p.name, p.schema, true⟩)))
        else pure state
    | none => pure state
  let state ← match names.query_schema_name with
    | some n =>
        if n ≠ "" && !query_params.isEmpty then
          register_and_emit st state n (_build_openapi_object_schema
            (query_params.map (fun p => ⟨p.name, p.schema, p.required⟩)))
        else pure state
    | none => pure state
  let state ← match names.headers_schema_name with
    | some n =>
        if n ≠ "" && !header_params.isEmpty then
          register_and_emit st state n (_build_openapi_object_schema
            (header_params.map (fun p => ⟨p.name, p.schema, p.required⟩)))
        else pure state
    | none => pure state
  let state ← match names.body_schema_name, route.request_body with
    | some n, some body =>
        if n ≠ "" then register_and_emit st state n body else pure state
    | _, _ => pure state
  route.responses.foldlM (fun state p =>
    if !pyTruthy p.2 then pure state
    else
      let suffix := if strStartsWith p.1 "2" then "Response" else "ErrorResponse"
      register_and_emit st state
        (_generate_route_schema_name route.path route.method (p.1 ++ suffix))
        p.2) state

/-- Model of `_generate_route_schemas` (the registry is returned as well,
since the Python function mutates it in place). -/
def _generate_route_schemas (st : Registry.PydanticSchemaRegistry)
    (routes : List Routes.RouteInfo) (registry : SchemaDedup.SchemaRegistry) :
    Except String RouteGenState :=
  routes.foldlM (routeStep st) ⟨registry, [], []⟩

end ToPython

namespace ToPython

/-- Nested map type for the `Request` table: path → method → role/schema
pairs. -/
abbrev PathMethodTable := List (String × List (String × List (String × String)))

/-- Model of `resolve_schema_name`. -/
def resolve_schema_name (schema_name_to_canonical : List (String × String))
    (name : String) : String :=
  dictGetD schema_name_to_canonical name name

/-- Accumulation of one route into the `request_paths` and `response_paths`
tables of `_generate_request_response_objects`. -/
def requestResponseStep (schema_name_to_canonical : List (String × String))
    (acc : PathMethodTable × PathMethodTable) (route : Routes.RouteInfo) :
    PathMethodTable × PathMethodTable :=
  let resolve := resolve_schema_name schema_name_to_canonical
  let names := Routes.generate_route_schema_names route
  let path_params := route.parameters.filter (fun p => p.location = "path")
  let query_params := route.parameters.filter (fun p => p.location = "query")
  let header_params := route.parameters.filter (fun p => p.location = "header")
  let request_parts : List (String × String) :=
    (match names.params_schema_name with
      | some n => if n ≠ "" && !path_params.isEmpty then
          [("params", resolve n ++ "Schema")] else []
      | none => []) ++
    (match names.query_schema_name with
      | some n => if n ≠ "" && !query_params.isEmpty then
          [("query", resolve n ++ "Schema")] else []
      | none => []) ++
    (match names.headers_schema_name with
      | some n => if n ≠ "" && !header_params.isEmpty then
          [("headers", resolve n ++ "Schema")] else []
      | none => []) ++
    (match names.body_schema_name, route.request_body with
      | some n, some _ => if n ≠ "" then [("body", resolve n ++ "Schema")] else []
      | _, _ => [])
  let reqInner0 := dictGetD acc.1 route.path []
  let reqInner1 :=
    if dictHasKey reqInner0 route.method then reqInner0
    else reqInner0 ++ [(route.method, [])]
  let reqInner2 :=
    if request_parts.isEmpty then reqInner1
    else dictSet reqInner1 route.method request_parts
  let request_paths := dictSet acc.1 route.path reqInner2
  let respInner0 := dictGetD acc.2 route.path []
  let respInner1 :=
    if dictHasKey respInner0 route.method then respInner0
    else respInner0 ++ [(route.method, [])]
  let statusMap0 := dictGetD respInner1 route.method []
  let statusMap := route.responses.foldl (fun sm p =>
    if !pyTruthy p.2 then sm
    else
      let suffix := if strStartsWith p.1 "2" then "Response" else "ErrorResponse"
      dictSet sm p.1 (resolve
        (_generate_route_schema_name route.path route.method (p.1 ++ suffix)) ++
        "Schema")) statusMap0
  let respInner2 := dictSet respInner1 route.method statusMap
  let response_paths := dictSet acc.2 route.path respInner2
  (request_paths, response_paths)

/-- Model of `_generate_request_response_objects`: render the two lookup
tables as source lines. -/
def _generate_request_response_objects (routes : List Routes.RouteInfo)
    (schema_name_to_canonical : List (String × String)) : List String :=
  let tables := routes.foldl (requestResponseStep schema_name_to_canonical) ([], [])
  let requestLines :=
    ["Request = \x7b"] ++
    (tables.1.foldl (fun lines pathEntry =>
      if pathEntry.2.isEmpty then lines
      else
        let method_entries := pathEntry.2.filter (fun me => !me.2.isEmpty)
        if method_entries.isEmpty then lines
        else
          lines ++ ["    " ++ pyReprStr pathEntry.1 ++ ": \x7b"] ++
          (method_entries.foldl (fun ls me =>
            ls ++ ["        " ++ pyReprStr me.1 ++ ": \x7b"] ++
            (me.2.map (fun part =>
              "            " ++ pyReprStr part.1 ++ ": " ++ part.2 ++ ",")) ++
            ["        \x7d,"]) []) ++
          ["    \x7d,"]) []) ++
    ["\x7d", ""]
  let responseLines :=
    ["Response = \x7b"] ++
    (tables.2.foldl (fun lines pathEntry =>
      if pathEntry.2.isEmpty then lines
      else
        lines ++ ["    " ++ pyReprStr pathEntry.1 ++ ": \x7b"] ++
        (pathEntry.2.foldl (fun ls me =>
          ls ++ ["        " ++ pyReprStr me.1 ++ ": \x7b"] ++
          (me.2.map (fun sc =>
            "            " ++ pyReprStr sc.1 ++ ": " ++ sc.2 ++ ",")) ++
          ["        \x7d,"]) []) ++
        ["    \x7d,"]) []) ++
    ["\x7d"]
  requestLines ++ responseLines

/-- The fixed preamble of the generated module. -/
def preambleLines : List String :=
  ["# This file was automatically generated from OpenAPI schema",
   "# Do not manually edit this file",
   "from __future__ " ++ "import annotations",
   "",
   "from typing " ++ "import Any, Annotated, Literal, Optional, TypeAlias, Union",
   "from datetime " ++ "import date, datetime",
   "from uuid " ++ "import UUID",
   "",
   "from pydantic " ++ "import BaseModel, ConfigDict, Field, RootModel, TypeAdapter",
   "from pydantic " ++ "import AnyUrl, EmailStr",
   "from python_zod_openapi.all_of " ++ "import all_of",
   ""]

/-- Processing of one name in the topological emission loop of
`openapi_to_pydantic_code`. -/
def componentStep (st : Registry.PydanticSchemaRegistry)
    (schemas : List (String × JValue))
    (acc : List String × SchemaDedup.SchemaRegistry) (name : String) :
    Except String (List String × SchemaDedup.SchemaRegistry) := do
  match objGet schemas name with
  | none => pure acc
  | some .null => pure acc
  | some schema => do
      let decl ← emit_schema_definition_top st name schema
      let fingerprint := SchemaDedup.get_schema_fingerprint schema
      pure (acc.1 ++ decl, SchemaDedup.pre_register_schema acc.2 name fingerprint)

/-- Processing of one hoisted common schema in `openapi_to_pydantic_code`:
skipped when its fingerprint is already registered, otherwise emitted and
pre-registered. -/
def commonStep (st : Registry.PydanticSchemaRegistry)
    (acc : List String × SchemaDedup.SchemaRegistry)
    (common : SchemaDedup.CommonSchema) :
    Except String (List String × SchemaDedup.SchemaRegistry) := do
  if dictHasKey acc.2.fingerprint_to_name common.fingerprint then pure acc
  else do
    let decl ← emit_schema_definition_top st common.name common.schema
    pure (acc.1 ++ decl, SchemaDedup.pre_register_schema acc.2 common.name
      common.fingerprint)

/-- Model of `openapi_to_pydantic_code`.  The process-wide format registry is
an explicit argument `st`; everything else the output depends on is among the
arguments. -/
def openapi_to_pydantic_code (st : Registry.PydanticSchemaRegistry)
    (openapi : JValue) (custom_import_lines : Option (List String))
    (options : Option (List (String × JValue))) : Except String String := do
  let components := jGet openapi "components"
  let schemas : List (String × JValue) :=
    match components with
    | some (.obj componentFields) =>
        match objGet componentFields "schemas" with
        | some (.obj schemaFields) => schemaFields
        | _ => []
    | _ => []
  let lines := preambleLines ++
    (match custom_import_lines with
      | some cil => if !cil.isEmpty then cil ++ [""] else []
      | none => [])
  let registry := SchemaDedup.create_schema_registry
  let res ← (Dependencies.topological_sort_schemas schemas).foldlM
    (componentStep st schemas) (lines, registry)
  let lines := res.1
  let registry := res.2
  let include_routes := match options with
    | some opts => if !opts.isEmpty then pyTruthy (objGetD opts "include_routes" .null)
        else false
    | none => false
  if include_routes then do
    let routes := Routes.parse_openapi_paths openapi
    if !routes.isEmpty then do
      let route_schema_list := _collect_route_schemas routes
      let common_schemas ← SchemaDedup.find_common_schemas route_schema_list 2
      let res2 ←
        if !common_schemas.isEmpty then do
          let r ← common_schemas.foldlM (commonStep st)
            (lines ++ ["# Common Error Schemas (deduplicated)"], registry)
          pure (r.1 ++ [""], r.2)
        else pure (lines, registry)
      let lines := res2.1
      let registry := res2.2
      let rg ← _generate_route_schemas st routes registry
      if !rg.declarations.isEmpty then
        .ok (String.intercalate "\n"
          (lines ++ ["# Route Schemas"] ++ rg.declarations ++ [""] ++
            _generate_request_response_objects routes rg.schema_name_to_canonical))
      else .ok (String.intercalate "\n" lines)
    else .ok (String.intercalate "\n" lines)
  else .ok (String.intercalate "\n" lines)

/-- Model of `convert_schema_to_pydantic_string`. -/
def convert_schema_to_pydantic_string (st : Registry.PydanticSchemaRegistry)
    (schema : JValue) : String :=
  _schema_to_type_expr st (JValue.size schema + 1) schema

end ToPython

/-! Theorems about the embedded generator. -/

/-- C1: compilation is deterministic.  In the embedding every piece of state
the output can depend on is explicit: the format registry (here freshly
cleared, whatever it held before), the document, the import lines and the
options.  Two runs from a cleared registry on the same input are therefore
definitionally the same value, byte for byte. -/
theorem openapi_to_pydantic_code_deterministic
    (st1 st2 : Registry.PydanticSchemaRegistry) (openapi : JValue)
    (custom_import_lines : Option (List String))
    (options : Option (List (String × JValue))) :
    ToPython.openapi_to_pydantic_code (Registry.clear st1) openapi
      custom_import_lines options =
    ToPython.openapi_to_pydantic_code (Registry.clear st2) openapi
      custom_import_lines options := rfl

/-- A component schema whose `required` value is the number `5`: the
`set(schema.get("required", []))` call in `_generate_model_lines` raises
`TypeError` on it. -/
def requiredFiveDoc : JValue := .obj
  [("components", .obj [("schemas", .obj
    [("A", .obj [("type", .str "object"),
      ("properties", .obj [("a", .obj [("type", .str "string")])]),
      ("required", .num 5)])])])]

/-- C7: compiling a document with a non-iterable `required` value raises
instead of degrading, contradicting the never-raises contract: the code
guards `required` with `isinstance(..., list)` in the `allOf` merge but
passes it unguarded to `set()` in `_generate_model_lines`. -/
theorem compile_raises_on_non_list_required :
    ToPython.openapi_to_pydantic_code Registry.emptyRegistry requiredFiveDoc
      none none = .error "TypeError: 'int' object is not iterable" := rfl

/-- The registration of the `email` string format under alias `EmailAlias`. -/
def emailRegistration : Registry.PydanticOpenApiRegistration :=
  ⟨"EmailAlias", "string", some (.str "email"), none, none⟩

/-- The registry state produced by registering `emailRegistration`. -/
def emailRegisteredState : Registry.PydanticSchemaRegistry :=
  ⟨[("email", "EmailAlias")], [], [(0, emailRegistration)]⟩

/-- The schema `{"type": "string", "format": "email"}`. -/
def emailSchema : JValue := .obj [("type", .str "string"), ("format", .str "email")]

/-- C8: registering (`string`, `email`) → `EmailAlias` makes the synthesizer
return `EmailAlias` for `{"type":"string","format":"email"}`; after `clear()`
the same schema synthesizes to the default decorated `EmailStr` type. -/
theorem email_format_roundtrip :
    Registry.register Registry.emptyRegistry 0 emailRegistration =
      .ok emailRegisteredState ∧
    Types.convert_openapi_string_to_pydantic emailRegisteredState emailSchema =
      "EmailAlias" ∧
    Types.convert_openapi_string_to_pydantic (Registry.clear emailRegisteredState)
      emailSchema =
      "Annotated[EmailStr, Field(json_schema_extra=\x7b'openapi': \x7b'format': 'email'\x7d\x7d)]" :=
  ⟨rfl, rfl, rfl⟩

/-- C5 counterexample: a schema whose only keyword is a one-element `anyOf`
synthesizes to `Any`, not to the member's expression: `_schema_to_type_expr`
never consults `anyOf`. -/
theorem anyOf_not_union_counterexample :
    ToPython._schema_to_type_expr Registry.emptyRegistry 5
      (.obj [("anyOf", .arr [.obj [("type", .str "string")]])]) = "Any" ∧
    ToPython._schema_to_type_expr Registry.emptyRegistry 4
      (.obj [("type", .str "string")]) = "Annotated[str, Field(strict=True)]" ∧
    ("Any" : String) ≠ "Annotated[str, Field(strict=True)]" :=
  ⟨rfl, rfl, by decide⟩

/-- A paths document whose only operation sits under the unrecognized method
key `trace`. -/
def traceDoc : JValue := .obj
  [("paths", .obj [("/x", .obj [("trace", .obj
    [("responses", .obj [("200", .obj [("content", .obj
      [("application/json", .obj
        [("schema", .obj [("type", .str "string")])])])])])])])])]

/-- C6 counterexample: an operation under a method key outside the seven
conventional verbs produces no `RouteInfo` at all — `parse_openapi_paths`
only probes the seven lowercase verbs, so the claimed GET route never
appears. -/
theorem unrecognized_method_no_route_counterexample :
    (Routes.parse_openapi_paths traceDoc).length = 0 := rfl

/-- C3 counterexample: when the first caller for a fingerprint registered the
empty-string name, a later caller with the same fingerprint gets
`is_new=true` and its own name as canonical (the `if existing:` truthiness
test treats the empty name as absent), not `is_new=false` with the first
caller's name. -/
theorem register_schema_empty_name_counterexample :
    ((SchemaDedup.register_schema
      (SchemaDedup.register_schema SchemaDedup.create_schema_registry ""
        (.obj [])).1 "X" (.obj [])).2 : SchemaDedup.RegisterSchemaResult) =
      ⟨true, "X"⟩ := rfl

/-- C10 counterexample: `register_schema` does not always leave the registry
unchanged when the fingerprint is already present — a present mapping to the
empty string is overwritten. -/
theorem register_schema_present_fingerprint_mutates_counterexample :
    (SchemaDedup.register_schema
      ⟨[(SchemaDedup.get_schema_fingerprint (.obj []), "")]⟩ "X" (.obj [])).1 ≠
    (⟨[(SchemaDedup.get_schema_fingerprint (.obj []), "")]⟩ :
      SchemaDedup.SchemaRegistry) := by decide

/-- A registration with the recognized type `string` but the unsupported
format name `foo`. -/
def fooRegistration : Registry.PydanticOpenApiRegistration :=
  ⟨"X", "string", some (.str "foo"), none, none⟩

/-- C9 counterexample: registering (`string`, `"foo"`) on an empty registry
raises although none of the claimed conditions holds — the tables are empty
(so no key is taken by a different alias) and the type `string` is
recognized; the registration fails because the format is unsupported, a
raise condition the claim does not list. -/
theorem register_raises_beyond_claimed_conditions_counterexample :
    Registry.register Registry.emptyRegistry 0 fooRegistration =
      .error "unsupported string format registration: 'foo'" ∧
    Registry.emptyRegistry.string_format_to_name = [] ∧
    Registry.emptyRegistry.primitive_type_to_name = [] ∧
    fooRegistration.type = "string" :=
  ⟨rfl, rfl, rfl, rfl⟩

/-- Lists of dicts pass through the `isinstance(item, dict)` filter of the
union converter unchanged. -/
theorem filter_isObj_map_obj (l : List (List (String × JValue))) :
    (l.map JValue.obj).filter (fun i => match i with
      | .obj _ => true
      | _ => false) = l.map JValue.obj := by
  induction l with
  | nil => rfl
  | cons m rest ih => simp [ih]

/-- C5 (amended): `oneOf` synthesizes to the union of the member expressions
(one member collapses to that member's expression with no wrapper), but
`anyOf` is never consulted: a schema whose only composition keyword is
`anyOf` falls through every recognized case and synthesizes to `Any`. -/
theorem oneOf_union_and_anyOf_ignored :
    (∀ (st : Registry.PydanticSchemaRegistry) (fuel : Nat)
       (fields : List (String × JValue)) (members : List (List (String × JValue))),
       objGet fields "$ref" = none →
       objGet fields "oneOf" = some (.arr (members.map JValue.obj)) →
       objGet fields "discriminator" = none →
       members ≠ [] →
       ToPython._schema_to_type_expr st (fuel + 1) (.obj fields) =
         ToPython._wrap_nullable
           (if 1 < members.length then
             "Union[" ++ String.intercalate ", "
               (members.map (fun m => ToPython._schema_to_type_expr st fuel (.obj m)))
               ++ "]"
           else ToPython._schema_to_type_expr st fuel (.obj (members.headD [])))
           (.obj fields)) ∧
    (∀ (st : Registry.PydanticSchemaRegistry) (fuel : Nat)
       (fields : List (String × JValue)) (members : List JValue),
       objGet fields "anyOf" = some (.arr members) →
       objGet fields "$ref" = none →
       objGet fields "oneOf" = none →
       objGet fields "allOf" = none →
       objGet fields "type" = none →
       objHasKey fields "properties" = false →
       objGet fields "enum" = none →
       ToPython._schema_to_type_expr st (fuel + 1) (.obj fields) =
         ToPython._wrap_nullable "Any" (.obj fields)) := by
  constructor
  · intro st fuel fields members href hone hdisc hne
    cases members with
    | nil => exact absurd rfl hne
    | cons m rest =>
        simp only [ToPython._schema_to_type_expr, href, hone,
          Types.convert_openapi_union_to_pydantic, jGet, hdisc,
          filter_isObj_map_obj, List.map_map]
        cases rest with
        | nil => simp [Types.wrap_annotated, Types._format_openapi_meta]
        | cons m2 rest2 =>
            simp only [Types.wrap_annotated, Types._format_openapi_meta,
              Function.comp_def, List.length_cons, List.headD_cons]
            simp
  · intro st fuel fields members hany href hone hall htype hprops henum
    simp [ToPython._schema_to_type_expr, href, hone, hall, htype, hprops,
      henum, jGet]

/-- Witness for the amended C5 theorem at concrete inputs: a one-member
`oneOf` collapses to the member's expression, and a one-member `anyOf` is
ignored. -/
theorem oneOf_union_and_anyOf_ignored_witness :
    ToPython._schema_to_type_expr Registry.emptyRegistry 4
      (.obj [("oneOf", .arr [.obj [("type", .str "string")]])]) =
      ToPython._wrap_nullable
        (ToPython._schema_to_type_expr Registry.emptyRegistry 3
          (.obj [("type", .str "string")]))
        (.obj [("oneOf", .arr [.obj [("type", .str "string")]])]) ∧
    ToPython._schema_to_type_expr Registry.emptyRegistry 4
      (.obj [("anyOf", .arr [.obj [("type", .str "string")]])]) =
      ToPython._wrap_nullable "Any"
        (.obj [("anyOf", .arr [.obj [("type", .str "string")]])]) :=
  ⟨oneOf_union_and_anyOf_ignored.1 Registry.emptyRegistry 3
      [("oneOf", .arr [.obj [("type", .str "string")]])]
      [[("type", .str "string")]] rfl rfl rfl (List.cons_ne_nil _ _),
   oneOf_union_and_anyOf_ignored.2 Registry.emptyRegistry 3
      [("anyOf", .arr [.obj [("type", .str "string")]])]
      [.obj [("type", .str "string")]] rfl rfl rfl rfl rfl rfl rfl⟩

/-- Preservation of a property of accumulated results along a left fold. -/
theorem foldl_invariant {α β : Type} (P : β → Prop) (f : List β → α → List β)
    (hf : ∀ acc x, (∀ r ∈ acc, P r) → ∀ r ∈ f acc x, P r) :
    ∀ (l : List α) (acc : List β), (∀ r ∈ acc, P r) → ∀ r ∈ l.foldl f acc, P r := by
  intro l
  induction l with
  | nil => intro acc h r hr; exact h r hr
  | cons x xs ih => intro acc h; exact ih _ (hf acc x h)

/-- `_to_upper_method` always lands in the recognized uppercase verb list. -/
theorem to_upper_method_mem (m : String) :
    Routes._to_upper_method m ∈ Routes.UPPER_METHODS := by
  unfold Routes._to_upper_method
  by_cases h : Routes.UPPER_METHODS.contains (pyUpper m) = true
  · simp only [h, if_true]
    exact List.elem_iff.mp h
  · simp only [h, if_false, Bool.false_eq_true]
    decide

/-- C6 (amended): `parse_openapi_paths` only probes the seven conventional
lowercase verbs, so every produced route carries one of the seven uppercase
methods and an operation under any other key yields no route at all;
`_to_upper_method` itself maps any unrecognized method name to `GET`, but
`parse_openapi_paths` never calls it on one. -/
theorem parse_openapi_paths_only_seven_verbs :
    (∀ (openapi : JValue) (r : Routes.RouteInfo),
       r ∈ Routes.parse_openapi_paths openapi →
       r.method ∈ Routes.UPPER_METHODS) ∧
    (∀ m : String, Routes.UPPER_METHODS.contains (pyUpper m) = false →
       Routes._to_upper_method m = "GET") := by
  constructor
  · intro openapi r hr
    unfold Routes.parse_openapi_paths at hr
    split at hr
    · refine foldl_invariant
        (fun r => r.method ∈ Routes.UPPER_METHODS) _ ?_ _ [] (by simp) r hr
      intro acc x h
      split
      · refine foldl_invariant
          (fun r => r.method ∈ Routes.UPPER_METHODS) _ ?_ _ acc h
        intro acc2 m h2
        split
        · intro r' hr'
          rcases List.mem_append.mp hr' with h3 | h3
          · exact h2 r' h3
          · have h4 := List.mem_singleton.mp h3
            subst h4
            exact to_upper_method_mem m
        · exact h2
      · exact h
    · cases hr
  · intro m h
    have h' : ¬ (Routes.UPPER_METHODS.contains (pyUpper m) = true) := by
      rw [h]; decide
    unfold Routes._to_upper_method
    rw [if_neg h']

/-- A paths document with a single `get` operation. -/
def getOnlyDoc : JValue := .obj [("paths", .obj [("/x", .obj [("get", .obj [])])])]

/-- The route extracted from `getOnlyDoc`. -/
def getOnlyRoute : Routes.RouteInfo := ⟨"/x", "GET", [], none, []⟩

/-- Witness for the amended C6 theorem: the one route of `getOnlyDoc` has a
recognized method, and `_to_upper_method` maps `trace` to `GET`. -/
theorem parse_openapi_paths_only_seven_verbs_witness :
    getOnlyRoute.method ∈ Routes.UPPER_METHODS ∧
    Routes._to_upper_method "trace" = "GET" :=
  ⟨parse_openapi_paths_only_seven_verbs.1 getOnlyDoc getOnlyRoute
      (List.mem_singleton_self _),
   parse_openapi_paths_only_seven_verbs.2 "trace" (by decide)⟩

/-- Lookup after update at the same key. -/
theorem dictGet_set_self {κ α : Type} [DecidableEq κ] (m : List (κ × α))
    (k : κ) (v : α) : dictGet (dictSet m k v) k = some v := by
  induction m with
  | nil => simp [dictSet, dictGet]
  | cons p rest ih =>
      by_cases h : p.1 = k
      · simp [dictSet, dictGet, h]
      · simp [dictSet, dictGet, h, ih]

/-- Lookup after update at a different key. -/
theorem dictGet_set_ne {κ α : Type} [DecidableEq κ] (m : List (κ × α))
    (k k' : κ) (v : α) (h : k' ≠ k) :
    dictGet (dictSet m k v) k' = dictGet m k' := by
  induction m with
  | nil => simp [dictSet, dictGet, Ne.symm h]
  | cons p rest ih =>
      by_cases hh : p.1 = k
      · simp [dictSet, dictGet, hh, Ne.symm h]
      · simp [dictSet, dictGet, hh, ih]

/-- Updating a key with the value it already holds leaves the list unchanged. -/
theorem dictSet_of_get_eq {κ α : Type} [DecidableEq κ] (m : List (κ × α))
    (k : κ) (v : α) (h : dictGet m k = some v) : dictSet m k v = m := by
  induction m with
  | nil => simp [dictGet] at h
  | cons p rest ih =>
      obtain ⟨pk, pv⟩ := p
      by_cases hh : pk = k
      · simp only [dictGet, hh, if_pos] at h
        cases h
        simp [dictSet, hh]
      · simp only [dictGet, hh, ite_false] at h
        simp [dictSet, hh, ih h]

/-- C3 (amended): the first `register_schema` call for a fingerprint returns
`is_new=true` with the caller's name as canonical; every later call with the
same fingerprint returns `is_new=false` with the first caller's name,
provided that name is nonempty (an empty canonical name is treated as absent
by the `if existing:` truthiness test); consequently, two named schemas with
equal fingerprints and distinct names, the first nonempty, produce exactly
one full declaration followed by one alias pair referring to it. -/
theorem register_schema_first_wins_dedup :
    (∀ (registry : SchemaDedup.SchemaRegistry) (name : String) (schema : JValue),
       dictGet registry.fingerprint_to_name
         (SchemaDedup.get_schema_fingerprint schema) = none →
       (SchemaDedup.register_schema registry name schema).2 =
         ⟨true, name⟩ ∧
       dictGet (SchemaDedup.register_schema registry name schema).1.fingerprint_to_name
         (SchemaDedup.get_schema_fingerprint schema) = some name) ∧
    (∀ (registry : SchemaDedup.SchemaRegistry) (name : String) (schema : JValue)
       (canonical : String),
       dictGet registry.fingerprint_to_name
         (SchemaDedup.get_schema_fingerprint schema) = some canonical →
       canonical ≠ "" →
       SchemaDedup.register_schema registry name schema =
         (registry, ⟨false, canonical⟩)) ∧
    (∀ (st : Registry.PydanticSchemaRegistry) (n1 n2 : String) (s1 s2 : JValue)
       (L : List String),
       SchemaDedup.get_schema_fingerprint s1 = SchemaDedup.get_schema_fingerprint s2 →
       n1 ≠ "" → n2 ≠ n1 →
       ToPython.emit_schema_definition_top st n1 s1 = .ok L →
       ((ToPython.register_and_emit st ⟨SchemaDedup.create_schema_registry, [], []⟩
           n1 s1).bind
         (fun state1 => ToPython.register_and_emit st state1 n2 s2)) =
         .ok ⟨⟨[(SchemaDedup.get_schema_fingerprint s1, n1)]⟩,
              L ++ ToPython._emit_schema_alias n2 n1 ++ [""],
              [(n1, n1), (n2, n1)]⟩) := by
  refine ⟨?_, ?_, ?_⟩
  · intro registry name schema h
    refine ⟨?_, ?_⟩
    · simp [SchemaDedup.register_schema, h]
    · simp [SchemaDedup.register_schema, h, dictGet_set_self]
  · intro registry name schema canonical h hne
    unfold SchemaDedup.register_schema
    simp only [h]
    rw [if_pos hne]
  · intro st n1 n2 s1 s2 L heq hn1 hne hL
    have h1 : ToPython.register_and_emit st
        ⟨SchemaDedup.create_schema_registry, [], []⟩ n1 s1 =
        .ok ⟨⟨[(SchemaDedup.get_schema_fingerprint s1, n1)]⟩, L, [(n1, n1)]⟩ := by
      simp only [ToPython.register_and_emit, SchemaDedup.register_schema,
        SchemaDedup.create_schema_registry, dictGet, dictSet, hL, Except.bind]
      rfl
    rw [h1]
    show ToPython.register_and_emit st
        ⟨⟨[(SchemaDedup.get_schema_fingerprint s1, n1)]⟩, L, [(n1, n1)]⟩ n2 s2 = _
    simp [ToPython.register_and_emit, SchemaDedup.register_schema, ← heq,
      dictGet, dictSet, hn1, hne, Ne.symm hne, ToPython._emit_schema_alias]

/-- The schema `{"type": "string"}`. -/
def simpleStringSchema : JValue := .obj [("type", .str "string")]

/-- The declaration emitted for `simpleStringSchema` under the name `A`. -/
def simpleStringLines : List String :=
  ["A: TypeAlias = Annotated[str, Field(strict=True)]",
   "ASchema = TypeAdapter(A)", ""]

/-- Witness for the amended C3 theorem at concrete inputs. -/
theorem register_schema_first_wins_dedup_witness :
    ((SchemaDedup.register_schema SchemaDedup.create_schema_registry "A"
        (.obj [])).2 = ⟨true, "A"⟩ ∧
     dictGet (SchemaDedup.register_schema SchemaDedup.create_schema_registry "A"
        (.obj [])).1.fingerprint_to_name
        (SchemaDedup.get_schema_fingerprint (.obj [])) = some "A") ∧
    SchemaDedup.register_schema
        ⟨[(SchemaDedup.get_schema_fingerprint (.obj []), "A")]⟩ "B" (.obj []) =
      (⟨[(SchemaDedup.get_schema_fingerprint (.obj []), "A")]⟩, ⟨false, "A"⟩) ∧
    ((ToPython.register_and_emit Registry.emptyRegistry
        ⟨SchemaDedup.create_schema_registry, [], []⟩ "A" simpleStringSchema).bind
      (fun state1 => ToPython.register_and_emit Registry.emptyRegistry state1
        "B" simpleStringSchema)) =
      .ok ⟨⟨[(SchemaDedup.get_schema_fingerprint simpleStringSchema, "A")]⟩,
           simpleStringLines ++ ToPython._emit_schema_alias "B" "A" ++ [""],
           [("A", "A"), ("B", "A")]⟩ :=
  ⟨register_schema_first_wins_dedup.1 _ "A" (.obj []) rfl,
   register_schema_first_wins_dedup.2.1 _ "B" (.obj []) "A" rfl (by decide),
   register_schema_first_wins_dedup.2.2 Registry.emptyRegistry "A" "B"
     simpleStringSchema simpleStringSchema simpleStringLines rfl (by decide)
     (by decide) rfl⟩

/-- C10 (amended): `register_schema` leaves the registry unchanged when the
fingerprint already maps to a nonempty canonical name (an empty-name mapping
is overwritten, as the counterexample shows); `pre_register_schema`
unconditionally overwrites, so a later pre-registration replaces whatever
canonical name an earlier registration established. -/
theorem register_schema_frame_pre_register_overwrites :
    (∀ (registry : SchemaDedup.SchemaRegistry) (name : String) (schema : JValue)
       (canonical : String),
       dictGet registry.fingerprint_to_name
         (SchemaDedup.get_schema_fingerprint schema) = some canonical →
       canonical ≠ "" →
       (SchemaDedup.register_schema registry name schema).1 = registry) ∧
    (∀ (registry : SchemaDedup.SchemaRegistry) (name fingerprint : String),
       dictGet (SchemaDedup.pre_register_schema registry name
         fingerprint).fingerprint_to_name fingerprint = some name) ∧
    (∀ (registry : SchemaDedup.SchemaRegistry) (n1 n2 : String) (schema : JValue),
       dictGet (SchemaDedup.pre_register_schema
           (SchemaDedup.register_schema registry n1 schema).1 n2
           (SchemaDedup.get_schema_fingerprint schema)).fingerprint_to_name
         (SchemaDedup.get_schema_fingerprint schema) = some n2) := by
  refine ⟨?_, ?_, ?_⟩
  · intro registry name schema canonical h hne
    unfold SchemaDedup.register_schema
    simp only [h]
    rw [if_pos hne]
  · intro registry name fingerprint
    exact dictGet_set_self _ _ _
  · intro registry n1 n2 schema
    exact dictGet_set_self _ _ _

/-- Witness for the amended C10 theorem at concrete inputs. -/
theorem register_schema_frame_pre_register_overwrites_witness :
    (SchemaDedup.register_schema
        ⟨[(SchemaDedup.get_schema_fingerprint (.obj []), "A")]⟩ "B" (.obj [])).1 =
      ⟨[(SchemaDedup.get_schema_fingerprint (.obj []), "A")]⟩ ∧
    dictGet (SchemaDedup.pre_register_schema SchemaDedup.create_schema_registry
        "N" "fp").fingerprint_to_name "fp" = some "N" ∧
    dictGet (SchemaDedup.pre_register_schema
        (SchemaDedup.register_schema SchemaDedup.create_schema_registry "A"
          (.obj [])).1 "B"
        (SchemaDedup.get_schema_fingerprint (.obj []))).fingerprint_to_name
      (SchemaDedup.get_schema_fingerprint (.obj [])) = some "B" :=
  ⟨register_schema_frame_pre_register_overwrites.1 _ "B" (.obj []) "A" rfl
      (by decide),
   register_schema_frame_pre_register_overwrites.2.1
      SchemaDedup.create_schema_registry "N" "fp",
   register_schema_frame_pre_register_overwrites.2.2
      SchemaDedup.create_schema_registry "A" "B" (.obj [])⟩

/-- A format registration conflicts when the format key already maps to a
different, nonempty alias. -/
def stringFormatConflict (st : Registry.PydanticSchemaRegistry)
    (name f : String) : Prop :=
  ∃ e, dictGet st.string_format_to_name f = some e ∧ e ≠ "" ∧ e ≠ name

/-- A format registration fails when the format is unsupported or conflicts. -/
def stringFormatBad (st : Registry.PydanticSchemaRegistry)
    (name f : String) : Prop :=
  f ∉ Registry.SUPPORTED_STRING_FORMATS ∨ stringFormatConflict st name f

/-- `_register_string_format` raises exactly on bad formats. -/
theorem register_string_format_error_iff (st : Registry.PydanticSchemaRegistry)
    (f : String) (r : Registry.PydanticOpenApiRegistration) :
    (∃ msg, Registry._register_string_format st f r = .error msg) ↔
    stringFormatBad st r.schema_exported_variable_name f := by
  unfold Registry._register_string_format stringFormatBad stringFormatConflict
  by_cases hsup : Registry.SUPPORTED_STRING_FORMATS.contains f = true
  · have hmem : f ∈ Registry.SUPPORTED_STRING_FORMATS := List.elem_iff.mp hsup
    simp only [hsup, Bool.not_true, Bool.false_eq_true, if_false, hmem,
      not_true, false_or]
    cases hg : dictGet st.string_format_to_name f with
    | none => simp
    | some e =>
        by_cases h1 : e = ""
        · subst h1
          simp
        · by_cases h2 : e = r.schema_exported_variable_name
          · subst h2
            simp [h1]
          · simp [h1, h2]
  · have hmem : f ∉ Registry.SUPPORTED_STRING_FORMATS := by
      intro hm
      exact hsup (List.elem_iff.mpr hm)
    simp only [Bool.not_eq_true] at hsup
    simp [hsup, hmem]

/-- Shape of a successful `_register_string_format`: the format table gains
the binding, the other tables are untouched. -/
theorem register_string_format_ok_shape (st st' : Registry.PydanticSchemaRegistry)
    (f : String) (r : Registry.PydanticOpenApiRegistration)
    (h : Registry._register_string_format st f r = .ok st') :
    st'.string_format_to_name =
      dictSet st.string_format_to_name f r.schema_exported_variable_name ∧
    st'.primitive_type_to_name = st.primitive_type_to_name ∧
    st'.schema_ids = st.schema_ids := by
  unfold Registry._register_string_format at h
  split at h
  · cases h
  · split at h
    · dsimp only at h
      split at h
      · cases h
      · cases h
        exact ⟨rfl, rfl, rfl⟩
    · cases h
      exact ⟨rfl, rfl, rfl⟩

/-- A successful format registration does not change which later single
registrations are bad (it can only have rebound the same alias name). -/
theorem stringFormatBad_invariant (st st' : Registry.PydanticSchemaRegistry)
    (f : String) (r : Registry.PydanticOpenApiRegistration)
    (hok : Registry._register_string_format st f r = .ok st') :
    ∀ g, stringFormatBad st' r.schema_exported_variable_name g ↔
         stringFormatBad st r.schema_exported_variable_name g := by
  intro g
  have hshape := register_string_format_ok_shape st st' f r hok
  have hnotbad : ¬ stringFormatBad st r.schema_exported_variable_name f := by
    intro hb
    rcases (register_string_format_error_iff st f r).mpr hb with ⟨msg, hmsg⟩
    rw [hok] at hmsg
    cases hmsg
  unfold stringFormatBad stringFormatConflict
  rw [hshape.1]
  by_cases hgf : g = f
  · subst hgf
    rw [dictGet_set_self]
    constructor
    · rintro (hns | ⟨e, he, _, h2⟩)
      · exact absurd (Or.inl hns) hnotbad
      · cases he
        exact absurd rfl h2
    · intro hb
      exact absurd hb hnotbad
  · rw [dictGet_set_ne _ _ _ _ hgf]

/-- The `formats` loop raises exactly when some string item of the list is
bad with respect to the state the loop started in. -/
theorem registerFormatsLoop_error_iff (r : Registry.PydanticOpenApiRegistration) :
    ∀ (items : List JValue) (st : Registry.PydanticSchemaRegistry),
    (∃ msg, Registry.registerFormatsLoop r items st = .error msg) ↔
    ∃ f, (JValue.str f) ∈ items ∧
      stringFormatBad st r.schema_exported_variable_name f := by
  intro items
  induction items with
  | nil =>
      intro st
      simp [Registry.registerFormatsLoop]
  | cons item rest ih =>
      intro st
      cases item with
      | str s =>
          cases hr : Registry._register_string_format st s r with
          | error msg =>
              have hloop : Registry.registerFormatsLoop r (.str s :: rest) st =
                  .error msg := by
                simp only [Registry.registerFormatsLoop, hr]
                rfl
              constructor
              · intro _
                exact ⟨s, List.mem_cons_self _ _,
                  (register_string_format_error_iff st s r).mp ⟨msg, hr⟩⟩
              · intro _
                exact ⟨msg, hloop⟩
          | ok st' =>
              have hloop : Registry.registerFormatsLoop r (.str s :: rest) st =
                  Registry.registerFormatsLoop r rest st' := by
                simp only [Registry.registerFormatsLoop, hr]
                rfl
              have hinv := stringFormatBad_invariant st st' s r hr
              have hbad_s : ¬ stringFormatBad st r.schema_exported_variable_name s := by
                intro hb
                rcases (register_string_format_error_iff st s r).mpr hb with ⟨msg, hmsg⟩
                rw [hr] at hmsg
                cases hmsg
              rw [hloop, ih st']
              constructor
              · rintro ⟨f, hf, hb⟩
                exact ⟨f, List.mem_cons_of_mem _ hf, (hinv f).mp hb⟩
              · rintro ⟨f, hf, hb⟩
                rcases List.mem_cons.mp hf with h | h
                · have hfs : f = s := by
                    injection h
                  subst hfs
                  exact absurd hb hbad_s
                · exact ⟨f, h, (hinv f).mpr hb⟩
      | null =>
          have hloop : Registry.registerFormatsLoop r (.null :: rest) st =
              Registry.registerFormatsLoop r rest st := rfl
          rw [hloop, ih st]
          constructor
          · rintro ⟨f, hf, hb⟩
            exact ⟨f, List.mem_cons_of_mem _ hf, hb⟩
          · rintro ⟨f, hf, hb⟩
            rcases List.mem_cons.mp hf with h | h
            · exact JValue.noConfusion h
            · exact ⟨f, h, hb⟩
      | bool b =>
          have hloop : Registry.registerFormatsLoop r (.bool b :: rest) st =
              Registry.registerFormatsLoop r rest st := rfl
          rw [hloop, ih st]
          constructor
          · rintro ⟨f, hf, hb⟩
            exact ⟨f, List.mem_cons_of_mem _ hf, hb⟩
          · rintro ⟨f, hf, hb⟩
            rcases List.mem_cons.mp hf with h | h
            · exact JValue.noConfusion h
            · exact ⟨f, h, hb⟩
      | num n =>
          have hloop : Registry.registerFormatsLoop r (.num n :: rest) st =
              Registry.registerFormatsLoop r rest st := rfl
          rw [hloop, ih st]
          constructor
          · rintro ⟨f, hf, hb⟩
            exact ⟨f, List.mem_cons_of_mem _ hf, hb⟩
          · rintro ⟨f, hf, hb⟩
            rcases List.mem_cons.mp hf with h | h
            · exact JValue.noConfusion h
            · exact ⟨f, h, hb⟩
      | arr xs =>
          have hloop : Registry.registerFormatsLoop r (.arr xs :: rest) st =
              Registry.registerFormatsLoop r rest st := rfl
          rw [hloop, ih st]
          constructor
          · rintro ⟨f, hf, hb⟩
            exact ⟨f, List.mem_cons_of_mem _ hf, hb⟩
          · rintro ⟨f, hf, hb⟩
            rcases List.mem_cons.mp hf with h | h
            · exact JValue.noConfusion h
            · exact ⟨f, h, hb⟩
      | obj fs =>
          have hloop : Registry.registerFormatsLoop r (.obj fs :: rest) st =
              Registry.registerFormatsLoop r rest st := rfl
          rw [hloop, ih st]
          constructor
          · rintro ⟨f, hf, hb⟩
            exact ⟨f, List.mem_cons_of_mem _ hf, hb⟩
          · rintro ⟨f, hf, hb⟩
            rcases List.mem_cons.mp hf with h | h
            · exact JValue.noConfusion h
            · exact ⟨f, h, hb⟩

/-- `registerPrimitiveOrFail` raises exactly on a conflicting nonempty alias
(for a primitive type) or an unrecognized type. -/
theorem registerPrimitiveOrFail_error_iff (st : Registry.PydanticSchemaRegistry)
    (schemaId : Nat) (r : Registry.PydanticOpenApiRegistration) :
    (∃ msg, Registry.registerPrimitiveOrFail st schemaId r = .error msg) ↔
    (((r.type = "number" ∨ r.type = "integer" ∨ r.type = "boolean") ∧
        ∃ e, dictGet st.primitive_type_to_name r.type = some e ∧ e ≠ "" ∧
          e ≠ r.schema_exported_variable_name) ∨
     ¬(r.type = "number" ∨ r.type = "integer" ∨ r.type = "boolean")) := by
  unfold Registry.registerPrimitiveOrFail
  by_cases hp : r.type = "number" ∨ r.type = "integer" ∨ r.type = "boolean"
  · rw [if_pos hp]
    cases hg : dictGet st.primitive_type_to_name r.type with
    | none => simp [hp]
    | some e =>
        by_cases h1 : e = ""
        · subst h1
          simp [hp]
        · by_cases h2 : e = r.schema_exported_variable_name
          · subst h2
            simp [hp, h1]
          · simp [hp, h1, h2]
  · rw [if_neg hp]
    simp [hp]

/-- With a single string format, `register` raises exactly when that format
is bad. -/
theorem register_single_format_error_iff (st : Registry.PydanticSchemaRegistry)
    (schemaId : Nat) (r : Registry.PydanticOpenApiRegistration) (f : String)
    (htype : r.type = "string") (hfmt : r.format = some (.str f)) :
    (∃ msg, Registry.register st schemaId r = .error msg) ↔
    stringFormatBad st r.schema_exported_variable_name f := by
  unfold Registry.register
  rw [if_pos htype, hfmt]
  rw [← register_string_format_error_iff st f r]
  dsimp only
  cases hr : Registry._register_string_format st f r with
  | error msg =>
      exact ⟨fun _ => ⟨msg, rfl⟩, fun _ => ⟨msg, rfl⟩⟩
  | ok st' =>
      constructor
      · rintro ⟨m, hm⟩
        exact Except.noConfusion hm
      · rintro ⟨m, hm⟩
        exact Except.noConfusion hm

/-- `registerPrimitiveOrFail` on a `string`-typed registration always raises
the unsupported-type error (`string` is not a primitive type). -/
theorem registerPrimitiveOrFail_string (st : Registry.PydanticSchemaRegistry)
    (schemaId : Nat) (r : Registry.PydanticOpenApiRegistration)
    (htype : r.type = "string") :
    Registry.registerPrimitiveOrFail st schemaId r =
      .error "unsupported registration type" := by
  unfold Registry.registerPrimitiveOrFail
  rw [if_neg]
  rw [htype]
  decide

/-- With no single string format and a `formats` list, `register` raises
exactly when some string item of the list is bad. -/
theorem register_formats_list_error_iff (st : Registry.PydanticSchemaRegistry)
    (schemaId : Nat) (r : Registry.PydanticOpenApiRegistration)
    (items : List JValue)
    (htype : r.type = "string") (hns : ∀ f, r.format ≠ some (.str f))
    (hfmts : r.formats = some (.arr items)) :
    (∃ msg, Registry.register st schemaId r = .error msg) ↔
    ∃ f, (JValue.str f) ∈ items ∧
      stringFormatBad st r.schema_exported_variable_name f := by
  unfold Registry.register
  rw [if_pos htype, ← registerFormatsLoop_error_iff r items st]
  split
  · next fv heq => exact absurd heq (hns fv)
  · split
    · next items' heq =>
        rw [hfmts] at heq
        injection heq with h
        injection h with h2
        subst h2
        cases hloop : Registry.registerFormatsLoop r items st with
        | error msg => exact ⟨fun _ => ⟨msg, rfl⟩, fun _ => ⟨msg, rfl⟩⟩
        | ok st' =>
            constructor
            · rintro ⟨m, hm⟩
              exact Except.noConfusion hm
            · rintro ⟨m, hm⟩
              exact Except.noConfusion hm
    · next h => exact absurd hfmts (h items)

/-- A `string`-typed registration with neither a string `format` nor a list
`formats` falls through to the unsupported-type error. -/
theorem register_string_no_format_error (st : Registry.PydanticSchemaRegistry)
    (schemaId : Nat) (r : Registry.PydanticOpenApiRegistration)
    (htype : r.type = "string") (hns : ∀ f, r.format ≠ some (.str f))
    (hna : ∀ items, r.formats ≠ some (.arr items)) :
    Registry.register st schemaId r = .error "unsupported registration type" := by
  unfold Registry.register
  rw [if_pos htype]
  split
  · next fv heq => exact absurd heq (hns fv)
  · split
    · next items heq => exact absurd heq (hna items)
    · exact registerPrimitiveOrFail_string st schemaId r htype

/-- A non-`string`-typed registration goes to `registerPrimitiveOrFail`. -/
theorem register_not_string (st : Registry.PydanticSchemaRegistry)
    (schemaId : Nat) (r : Registry.PydanticOpenApiRegistration)
    (htype : r.type ≠ "string") :
    Registry.register st schemaId r =
      Registry.registerPrimitiveOrFail st schemaId r := by
  unfold Registry.register
  rw [if_neg htype]

/-- C9 (amended): `register` raises exactly when (i) a single supported
string format or a primitive type is already taken by a different nonempty
alias, (ii) a string registration names an unsupported format (in `format`
or among the string items of `formats`), (iii) a `string`-typed registration
carries neither a string `format` nor a list `formats`, or (iv) the type is
unrecognized; re-registering an identical mapping returns normally and
leaves the format and primitive lookup tables unchanged. -/
theorem register_raises_iff_and_noop :
    (∀ (st : Registry.PydanticSchemaRegistry) (schemaId : Nat)
       (r : Registry.PydanticOpenApiRegistration),
       (∃ msg, Registry.register st schemaId r = .error msg) ↔
       ((r.type = "string" ∧ ∃ f, r.format = some (.str f) ∧
           stringFormatBad st r.schema_exported_variable_name f) ∨
        (r.type = "string" ∧ (∀ f, r.format ≠ some (.str f)) ∧
           ∃ items, r.formats = some (.arr items) ∧ ∃ f, (JValue.str f) ∈ items ∧
             stringFormatBad st r.schema_exported_variable_name f) ∨
        (r.type = "string" ∧ (∀ f, r.format ≠ some (.str f)) ∧
           ∀ items, r.formats ≠ some (.arr items)) ∨
        ((r.type = "number" ∨ r.type = "integer" ∨ r.type = "boolean") ∧
           ∃ e, dictGet st.primitive_type_to_name r.type = some e ∧ e ≠ "" ∧
             e ≠ r.schema_exported_variable_name) ∨
        (r.type ≠ "string" ∧ r.type ≠ "number" ∧ r.type ≠ "integer" ∧
           r.type ≠ "boolean"))) ∧
    (∀ (st : Registry.PydanticSchemaRegistry) (schemaId : Nat)
       (r : Registry.PydanticOpenApiRegistration) (f : String),
       r.type = "string" → r.format = some (.str f) →
       f ∈ Registry.SUPPORTED_STRING_FORMATS →
       dictGet st.string_format_to_name f = some r.schema_exported_variable_name →
       Except.map (fun s => (s.string_format_to_name, s.primitive_type_to_name))
         (Registry.register st schemaId r) =
         .ok (st.string_format_to_name, st.primitive_type_to_name)) ∧
    (∀ (st : Registry.PydanticSchemaRegistry) (schemaId : Nat)
       (r : Registry.PydanticOpenApiRegistration),
       (r.type = "number" ∨ r.type = "integer" ∨ r.type = "boolean") →
       dictGet st.primitive_type_to_name r.type =
         some r.schema_exported_variable_name →
       Except.map (fun s => (s.string_format_to_name, s.primitive_type_to_name))
         (Registry.register st schemaId r) =
         .ok (st.string_format_to_name, st.primitive_type_to_name)) := by
  refine ⟨?_, ?_, ?_⟩
  · intro st schemaId r
    by_cases htype : r.type = "string"
    · by_cases hsing : ∃ f, r.format = some (.str f)
      · rcases hsing with ⟨f, hf⟩
        rw [register_single_format_error_iff st schemaId r f htype hf]
        constructor
        · intro hb
          exact Or.inl ⟨htype, f, hf, hb⟩
        · rintro (⟨_, f', hf', hb⟩ | ⟨_, hns, _⟩ | ⟨_, hns, _⟩ | ⟨hp, _⟩ | ⟨hnstr, _⟩)
          · rw [hf] at hf'
            injection hf' with h'
            injection h' with h''
            subst h''
            exact hb
          · exact absurd hf (hns f)
          · exact absurd hf (hns f)
          · rw [htype] at hp
            exact absurd hp (by decide)
          · exact absurd htype hnstr
      · have hns : ∀ f, r.format ≠ some (.str f) := fun f h => hsing ⟨f, h⟩
        by_cases harr : ∃ items, r.formats = some (.arr items)
        · rcases harr with ⟨items, hfa⟩
          rw [register_formats_list_error_iff st schemaId r items htype hns hfa]
          constructor
          · intro hex
            exact Or.inr (Or.inl ⟨htype, hns, items, hfa, hex⟩)
          · rintro (⟨_, f', hf', _⟩ | ⟨_, _, items', hfa', hex⟩ | ⟨_, _, hna⟩ |
              ⟨hp, _⟩ | ⟨hnstr, _⟩)
            · exact absurd hf' (hns f')
            · rw [hfa] at hfa'
              injection hfa' with h'
              injection h' with h''
              subst h''
              exact hex
            · exact absurd hfa (hna items)
            · rw [htype] at hp
              exact absurd hp (by decide)
            · exact absurd htype hnstr
        · have hna : ∀ items, r.formats ≠ some (.arr items) :=
            fun items h => harr ⟨items, h⟩
          have herr := register_string_no_format_error st schemaId r htype hns hna
          constructor
          · intro _
            exact Or.inr (Or.inr (Or.inl ⟨htype, hns, hna⟩))
          · intro _
            exact ⟨_, herr⟩
    · rw [register_not_string st schemaId r htype,
        registerPrimitiveOrFail_error_iff st schemaId r]
      constructor
      · rintro (⟨hp, hconf⟩ | hnp)
        · exact Or.inr (Or.inr (Or.inr (Or.inl ⟨hp, hconf⟩)))
        · exact Or.inr (Or.inr (Or.inr (Or.inr ⟨htype,
            fun h => hnp (Or.inl h),
            fun h => hnp (Or.inr (Or.inl h)),
            fun h => hnp (Or.inr (Or.inr h))⟩)))
      · rintro (⟨hstr, _⟩ | ⟨hstr, _⟩ | ⟨hstr, _⟩ | ⟨hp, hconf⟩ | ⟨_, h1, h2, h3⟩)
        · exact absurd hstr htype
        · exact absurd hstr htype
        · exact absurd hstr htype
        · exact Or.inl ⟨hp, hconf⟩
        · refine Or.inr ?_
          rintro (h | h | h)
          · exact h1 h
          · exact h2 h
          · exact h3 h
  · intro st schemaId r f htype hfmt hmem hget
    have hcont : Registry.SUPPORTED_STRING_FORMATS.contains f = true :=
      List.elem_iff.mpr hmem
    unfold Registry.register
    rw [if_pos htype, hfmt]
    dsimp only
    unfold Registry._register_string_format
    simp only [hcont, Bool.not_true, Bool.false_eq_true, if_false, hget]
    simp only [dictSet_of_get_eq _ _ _ hget, ne_eq, not_true, decide_False,
      Bool.and_false, Bool.false_eq_true, if_false]
    rfl
  · intro st schemaId r hp hget
    have htype : r.type ≠ "string" := by
      rcases hp with h | h | h <;> rw [h] <;> decide
    rw [register_not_string st schemaId r htype]
    unfold Registry.registerPrimitiveOrFail
    rw [if_pos hp]
    simp only [hget]
    simp [dictSet_of_get_eq _ _ _ hget, Except.map]

/-- A registration of the primitive type `number` under alias `NumAlias`. -/
def numRegistration : Registry.PydanticOpenApiRegistration :=
  ⟨"NumAlias", "number", none, none, none⟩

/-- A registry state already holding the `number` → `NumAlias` binding. -/
def numRegisteredState : Registry.PydanticSchemaRegistry :=
  ⟨[], [("number", "NumAlias")], []⟩

/-- Witness for the amended C9 theorem: re-registering the identical email
format mapping and the identical number mapping returns normally with both
lookup tables unchanged. -/
theorem register_raises_iff_and_noop_witness :
    Except.map (fun s => (s.string_format_to_name, s.primitive_type_to_name))
      (Registry.register emailRegisteredState 1 emailRegistration) =
      .ok (emailRegisteredState.string_format_to_name,
        emailRegisteredState.primitive_type_to_name) ∧
    Except.map (fun s => (s.string_format_to_name, s.primitive_type_to_name))
      (Registry.register numRegisteredState 2 numRegistration) =
      .ok (numRegisteredState.string_format_to_name,
        numRegisteredState.primitive_type_to_name) :=
  ⟨register_raises_iff_and_noop.2.1 emailRegisteredState 1 emailRegistration
      "email" rfl rfl (by decide) rfl,
   register_raises_iff_and_noop.2.2 numRegisteredState 2 numRegistration
      (Or.inl rfl) rfl⟩

/-- Lookup in an appended assoc list: the left part wins. -/
theorem dictGet_append {κ α : Type} [DecidableEq κ] (m m' : List (κ × α)) (k : κ) :
    dictGet (m ++ m') k =
      match dictGet m k with
      | some v => some v
      | none => dictGet m' k := by
  induction m with
  | nil => simp [dictGet]
  | cons p rest ih =>
      by_cases h : p.1 = k
      · simp [dictGet, h]
      · simp [dictGet, h, ih]

/-- A key that looks up to nothing is not among the keys. -/
theorem not_mem_keys_of_dictGet_none {κ α : Type} [DecidableEq κ]
    (m : List (κ × α)) (k : κ) (h : dictGet m k = none) :
    k ∉ m.map Prod.fst := by
  induction m with
  | nil => simp
  | cons p rest ih =>
      by_cases hh : p.1 = k
      · simp [dictGet, hh] at h
      · simp only [dictGet, hh, ite_false] at h
        simp only [List.map_cons, List.mem_cons, not_or]
        exact ⟨fun he => hh he.symm, ih h⟩

/-- Updating an existing key preserves the key sequence. -/
theorem keys_dictSet_mem {κ α : Type} [DecidableEq κ] (m : List (κ × α))
    (k : κ) (v : α) (g : α) (h : dictGet m k = some g) :
    (dictSet m k v).map Prod.fst = m.map Prod.fst := by
  induction m with
  | nil => simp [dictGet] at h
  | cons p rest ih =>
      by_cases hh : p.1 = k
      · simp [dictSet, hh]
      · simp only [dictGet, hh, ite_false] at h
        simp [dictSet, hh, ih h]

/-- With unique keys, every entry looks itself up. -/
theorem dictGet_of_mem_nodup {κ α : Type} [DecidableEq κ] (m : List (κ × α))
    (hn : (m.map Prod.fst).Nodup) :
    ∀ p ∈ m, dictGet m p.1 = some p.2 := by
  induction m with
  | nil => simp
  | cons q rest ih =>
      intro p hp
      rcases List.mem_cons.mp hp with h | h
      · subst h
        simp [dictGet]
      · have hq : q.1 ≠ p.1 := by
          intro he
          have : p.1 ∈ rest.map Prod.fst := List.mem_map_of_mem Prod.fst h
          rw [← he] at this
          exact (List.nodup_cons.mp hn).1 this
        simp only [dictGet, hq, ite_false]
        exact ih (List.nodup_cons.mp hn).2 p h

/-- A successful lookup comes from an entry of the list. -/
theorem mem_of_dictGet_some {κ α : Type} [DecidableEq κ] (m : List (κ × α))
    (k : κ) (v : α) (h : dictGet m k = some v) : (k, v) ∈ m := by
  induction m with
  | nil => simp [dictGet] at h
  | cons p rest ih =>
      by_cases hh : p.1 = k
      · simp only [dictGet, hh, if_pos] at h
        cases h
        have : (k, p.2) = p := by
          rw [← hh]
        rw [this]
        exact List.mem_cons_self _ _
      · simp only [dictGet, hh, ite_false] at h
        exact List.mem_cons_of_mem _ (ih h)

/-- Fingerprint of a named schema. -/
def fpOf (i : SchemaDedup.NamedSchema) : String :=
  SchemaDedup.get_schema_fingerprint i.schema

/-- The occurrences of one fingerprint among collected named schemas. -/
def occurrencesOf (schemas : List SchemaDedup.NamedSchema) (fpr : String) :
    List SchemaDedup.NamedSchema :=
  schemas.filter (fun i => fpOf i == fpr)

/-- Invariant of the grouping fold of `find_common_schemas`: the accumulator
has one entry per fingerprint seen so far, carrying the names of all its
occurrences in order and the schema/error-code of the first occurrence. -/
def GroupInv (processed : List SchemaDedup.NamedSchema)
    (acc : List (String × SchemaDedup.FingerprintGroup)) : Prop :=
  (acc.map Prod.fst).Nodup ∧
  (∀ fpr g, dictGet acc fpr = some g →
      g.names = (occurrencesOf processed fpr).map SchemaDedup.NamedSchema.name ∧
      ∃ first rest, occurrencesOf processed fpr = first :: rest ∧
        g.schema = first.schema ∧
        SchemaDedup.extract_error_code first.schema = .ok g.error_code) ∧
  (∀ fpr, dictGet acc fpr = none → occurrencesOf processed fpr = [])

/-- Appending an item extends exactly its own fingerprint's occurrence list. -/
theorem occurrencesOf_append_self (processed : List SchemaDedup.NamedSchema)
    (item : SchemaDedup.NamedSchema) :
    occurrencesOf (processed ++ [item])
      (SchemaDedup.get_schema_fingerprint item.schema) =
    occurrencesOf processed (SchemaDedup.get_schema_fingerprint item.schema)
      ++ [item] := by
  unfold occurrencesOf
  rw [List.filter_append]
  simp [fpOf]

/-- Appending an item leaves other fingerprints' occurrence lists unchanged. -/
theorem occurrencesOf_append_ne (processed : List SchemaDedup.NamedSchema)
    (item : SchemaDedup.NamedSchema) (fpr : String)
    (h : SchemaDedup.get_schema_fingerprint item.schema ≠ fpr) :
    occurrencesOf (processed ++ [item]) fpr = occurrencesOf processed fpr := by
  unfold occurrencesOf
  rw [List.filter_append]
  simp [fpOf, h]

/-- One grouping step preserves the invariant. -/
theorem groupStep_inv (processed : List SchemaDedup.NamedSchema)
    (acc : List (String × SchemaDedup.FingerprintGroup))
    (item : SchemaDedup.NamedSchema)
    (acc' : List (String × SchemaDedup.FingerprintGroup))
    (hinv : GroupInv processed acc)
    (hstep : SchemaDedup.groupStep acc item = .ok acc') :
    GroupInv (processed ++ [item]) acc' := by
  obtain ⟨hnd, hsome, hnone⟩ := hinv
  unfold SchemaDedup.groupStep at hstep
  dsimp only at hstep
  cases hg : dictGet acc (SchemaDedup.get_schema_fingerprint item.schema) with
  | some existing =>
      rw [hg] at hstep
      cases hstep
      refine ⟨?_, ?_, ?_⟩
      · rw [keys_dictSet_mem _ _ _ _ hg]
        exact hnd
      · intro fpr g hget
        by_cases hf : fpr = SchemaDedup.get_schema_fingerprint item.schema
        · subst hf
          rw [dictGet_set_self] at hget
          cases hget
          obtain ⟨hnames, first, rest, hocc, hschema, hec⟩ := hsome _ _ hg
          rw [occurrencesOf_append_self, hocc]
          refine ⟨?_, first, rest ++ [item], rfl, hschema, hec⟩
          simp only [List.map_append, hnames, hocc]
          simp
        · rw [dictGet_set_ne _ _ _ _ hf] at hget
          rw [occurrencesOf_append_ne _ _ _ (Ne.symm hf)]
          exact hsome _ _ hget
      · intro fpr hget
        by_cases hf : fpr = SchemaDedup.get_schema_fingerprint item.schema
        · subst hf
          rw [dictGet_set_self] at hget
          cases hget
        · rw [dictGet_set_ne _ _ _ _ hf] at hget
          rw [occurrencesOf_append_ne _ _ _ (Ne.symm hf)]
          exact hnone _ hget
  | none =>
      rw [hg] at hstep
      cases hec : SchemaDedup.extract_error_code item.schema with
      | error e =>
          rw [hec] at hstep
          cases hstep
      | ok ec =>
          rw [hec] at hstep
          cases hstep
          refine ⟨?_, ?_, ?_⟩
          · simp only [List.map_append, List.map_cons, List.map_nil]
            rw [List.nodup_append]
            refine ⟨hnd, List.nodup_singleton _, ?_⟩
            intro a ha hb
            rcases List.mem_singleton.mp hb with rfl
            exact not_mem_keys_of_dictGet_none _ _ hg ha
          · intro fpr g hget
            rw [dictGet_append] at hget
            by_cases hf : fpr = SchemaDedup.get_schema_fingerprint item.schema
            · subst hf
              rw [hg] at hget
              simp only [dictGet, if_pos rfl] at hget
              cases hget
              rw [occurrencesOf_append_self, hnone _ hg]
              exact ⟨rfl, item, [], rfl, rfl, hec⟩
            · cases hcase : dictGet acc fpr with
              | some g' =>
                  rw [hcase] at hget
                  cases hget
                  rw [occurrencesOf_append_ne _ _ _ (Ne.symm hf)]
                  exact hsome _ _ hcase
              | none =>
                  rw [hcase] at hget
                  simp only [dictGet, Ne.symm hf, ite_false] at hget
                  cases hget
          · intro fpr hget
            rw [dictGet_append] at hget
            cases hcase : dictGet acc fpr with
            | some g' =>
                rw [hcase] at hget
                cases hget
            | none =>
                rw [hcase] at hget
                by_cases hf : fpr = SchemaDedup.get_schema_fingerprint item.schema
                · subst hf
                  simp [dictGet] at hget
                · rw [occurrencesOf_append_ne _ _ _ (Ne.symm hf)]
                  exact hnone _ hcase

/-- The grouping fold preserves the invariant across a whole list. -/
theorem groupFold_inv :
    ∀ (schemas processed : List SchemaDedup.NamedSchema)
      (acc out : List (String × SchemaDedup.FingerprintGroup)),
      GroupInv processed acc →
      schemas.foldlM SchemaDedup.groupStep acc = .ok out →
      GroupInv (processed ++ schemas) out := by
  intro schemas
  induction schemas with
  | nil =>
      intro processed acc out hinv hfold
      simp only [List.foldlM_nil] at hfold
      cases hfold
      simpa using hinv
  | cons x xs ih =>
      intro processed acc out hinv hfold
      simp only [List.foldlM_cons] at hfold
      cases hstep : SchemaDedup.groupStep acc x with
      | error e =>
          rw [hstep] at hfold
          cases hfold
      | ok acc' =>
          rw [hstep] at hfold
          have := ih (processed ++ [x]) acc' out
            (groupStep_inv processed acc x acc' hinv hstep) hfold
          simpa [List.append_assoc] using this

/-- Insertion used by the count-descending sort is a permutation. -/
theorem insertByCountDesc_perm (x : SchemaDedup.CommonSchema)
    (l : List SchemaDedup.CommonSchema) :
    List.Perm (SchemaDedup.insertByCountDesc x l) (x :: l) := by
  induction l with
  | nil => rfl
  | cons y rest ih =>
      unfold SchemaDedup.insertByCountDesc
      by_cases h : y.count < x.count
      · rw [if_pos h]
      · rw [if_neg h]
        exact (ih.cons y).trans (List.Perm.swap x y rest)

/-- The count-descending sort fold permutes its input. -/
theorem sortByCountDesc_perm :
    ∀ (l acc : List SchemaDedup.CommonSchema),
      List.Perm (l.foldl (fun acc x => SchemaDedup.insertByCountDesc x acc) acc)
        (acc ++ l) := by
  intro l
  induction l with
  | nil => simp
  | cons x xs ih =>
      intro acc
      simp only [List.foldl_cons]
      refine (ih (SchemaDedup.insertByCountDesc x acc)).trans ?_
      refine (List.Perm.append_right xs (insertByCountDesc_perm x acc)).trans ?_
      exact List.perm_middle.symm

/-- Unfolding of a successful `find_common_schemas`: the sorted entries are a
permutation of the per-fingerprint entries derived from the grouping fold. -/
theorem find_common_schemas_spec (schemas : List SchemaDedup.NamedSchema)
    (min_count : Nat) (common : List SchemaDedup.CommonSchema)
    (h : SchemaDedup.find_common_schemas schemas min_count = .ok common) :
    ∃ out, schemas.foldlM SchemaDedup.groupStep [] = .ok out ∧
      List.Perm common (out.filterMap (SchemaDedup.groupToCommon min_count)) := by
  unfold SchemaDedup.find_common_schemas at h
  cases hfold : List.foldlM SchemaDedup.groupStep [] schemas with
  | error e =>
      rw [show schemas.foldlM SchemaDedup.groupStep [] =
        List.foldlM SchemaDedup.groupStep [] schemas from rfl, hfold] at h
      cases h
  | ok out =>
      rw [show schemas.foldlM SchemaDedup.groupStep [] =
        List.foldlM SchemaDedup.groupStep [] schemas from rfl, hfold] at h
      simp only [Except.bind] at h
      cases h
      refine ⟨out, rfl, ?_⟩
      simpa using sortByCountDesc_perm
        (out.filterMap (SchemaDedup.groupToCommon min_count)) []

/-- A produced common-schema entry carries its group's fingerprint key. -/
theorem groupToCommon_fingerprint (mc : Nat)
    (p : String × SchemaDedup.FingerprintGroup) (c : SchemaDedup.CommonSchema)
    (h : SchemaDedup.groupToCommon mc p = some c) : c.fingerprint = p.1 := by
  unfold SchemaDedup.groupToCommon at h
  by_cases hl : p.2.names.length < mc
  · rw [if_pos hl] at h
    cases h
  · rw [if_neg hl] at h
    cases h
    rfl

/-- The fingerprints of the produced entries form a sublist of the group
keys. -/
theorem filterMap_groupToCommon_keys_sublist (mc : Nat) :
    ∀ out : List (String × SchemaDedup.FingerprintGroup),
      List.Sublist ((out.filterMap (SchemaDedup.groupToCommon mc)).map
        SchemaDedup.CommonSchema.fingerprint) (out.map Prod.fst) := by
  intro out
  induction out with
  | nil => simp
  | cons p rest ih =>
      cases hgc : SchemaDedup.groupToCommon mc p with
      | none =>
          simp only [List.filterMap_cons, hgc, List.map_cons]
          exact ih.cons _
      | some c =>
          simp only [List.filterMap_cons, hgc, List.map_cons]
          rw [groupToCommon_fingerprint mc p c hgc]
          exact ih.cons₂ _

/-- The error-shaped 401 response schema used by the hoisting example. -/
def errSchema401 : JValue := .obj
  [("type", .str "object"),
   ("properties", .obj
     [("error", .obj
        [("type", .str "object"),
         ("properties", .obj
           [("code", .obj [("enum", .arr [.str "not_authorized"])]),
            ("message", .obj [("type", .str "string")])])])])]

/-- A responses object with only the 401 status. -/
def resp401 : JValue := .obj
  [("401", .obj [("content", .obj
     [("application/json", .obj [("schema", errSchema401)])])])]

/-- Two routes whose 401 responses are structurally identical. -/
def doc401 : JValue := .obj
  [("paths", .obj
     [("/a", .obj [("get", .obj [("responses", resp401)])]),
      ("/b", .obj [("get", .obj [("responses", resp401)])])])]

/-- The full output of compiling `doc401` with routes enabled: one shared
hoisted declaration (plus its lifted nested object) and two alias pairs. -/
def expected401Lines : List String :=
  ["# This file was automatically generated from OpenAPI schema",
   "# Do not manually edit this file",
   "from __future__ " ++ "import annotations",
   "",
   "from typing " ++ "import Any, Annotated, Literal, Optional, TypeAlias, Union",
   "from datetime " ++ "import date, datetime",
   "from uuid " ++ "import UUID",
   "",
   "from pydantic " ++ "import BaseModel, ConfigDict, Field, RootModel, TypeAdapter",
   "from pydantic " ++ "import AnyUrl, EmailStr",
   "from python_zod_openapi.all_of " ++ "import all_of",
   "",
   "# Common Error Schemas (deduplicated)",
   "class NotAuthorizedErrorError(BaseModel):",
   "    code: Literal['not_authorized'] = None",
   "    message: Annotated[str, Field(strict=True)] = None",
   "NotAuthorizedErrorError.model_rebuild()",
   "NotAuthorizedErrorErrorSchema = TypeAdapter(NotAuthorizedErrorError)",
   "",
   "class NotAuthorizedError(BaseModel):",
   "    error: NotAuthorizedErrorError = None",
   "NotAuthorizedError.model_rebuild()",
   "NotAuthorizedErrorSchema = TypeAdapter(NotAuthorizedError)",
   "",
   "",
   "# Route Schemas",
   "GetA401ErrorResponse = NotAuthorizedError",
   "GetA401ErrorResponseSchema = NotAuthorizedErrorSchema",
   "",
   "GetB401ErrorResponse = NotAuthorizedError",
   "GetB401ErrorResponseSchema = NotAuthorizedErrorSchema",
   "",
   "",
   "Request = \x7b",
   "\x7d",
   "",
   "Response = \x7b",
   "    '/a': \x7b",
   "        'GET': \x7b",
   "            '401': NotAuthorizedErrorSchema,",
   "        \x7d,",
   "    \x7d,",
   "    '/b': \x7b",
   "        'GET': \x7b",
   "            '401': NotAuthorizedErrorSchema,",
   "        \x7d,",
   "    \x7d,",
   "\x7d"]

/-- Two routes whose (2xx) 200 responses are structurally identical. -/
def okRoutes : List Routes.RouteInfo :=
  [⟨"/a", "GET", [], none, [("200", simpleStringSchema)]⟩,
   ⟨"/b", "GET", [], none, [("200", simpleStringSchema)]⟩]

/-- C4 counterexample: the hoisting pass does not group only the non-2xx
responses — two identical `200` responses form a hoisted group of count 2
(named after the first route's derived `Response` name). -/
theorem hoisting_groups_2xx_counterexample :
    SchemaDedup.find_common_schemas (ToPython._collect_route_schemas okRoutes) 2 =
      .ok [⟨"GetA200Response", simpleStringSchema,
        "\x7b\"type\": \"string\"\x7d", 2⟩] ∧
    strStartsWith "200" "2" = true := ⟨rfl, rfl⟩

/-- C4 (amended): the hoisting pass groups ALL collected route responses by
exact fingerprint, not only the non-2xx ones.  Every group with at least 2
occurrences yields exactly one entry: its count is the number of occurrences
of its fingerprint, its schema is the first occurrence's schema, and it is
named from a detected single-valued `code` enum of the first occurrence's
`\x7berror: \x7bcode, message\x7d\x7d`-shaped schema if present, else the
first occurrence's derived name; fingerprints of the produced entries are
pairwise distinct and every fingerprint with at least 2 occurrences is
represented.  Concretely, two routes whose 401 response has an identical
fingerprint produce exactly one shared declaration and two alias pairs. -/
theorem error_hoisting_groups_and_dedup :
    (∀ (schemas : List SchemaDedup.NamedSchema)
       (common : List SchemaDedup.CommonSchema),
       SchemaDedup.find_common_schemas schemas 2 = .ok common →
       ((∀ c ∈ common,
           2 ≤ c.count ∧
           c.count = (occurrencesOf schemas c.fingerprint).length ∧
           ∃ first rest,
             occurrencesOf schemas c.fingerprint = first :: rest ∧
             c.schema = first.schema ∧
             ∃ ec, SchemaDedup.extract_error_code first.schema = .ok ec ∧
               c.name = (match ec with
                 | some code => SchemaDedup.generate_common_error_schema_name code
                 | none => first.name)) ∧
        (common.map SchemaDedup.CommonSchema.fingerprint).Nodup ∧
        (∀ fpr, 2 ≤ (occurrencesOf schemas fpr).length →
          ∃ c ∈ common, c.fingerprint = fpr))) ∧
    ToPython.openapi_to_pydantic_code Registry.emptyRegistry doc401 none
        (some [("include_routes", .bool true)]) =
      .ok (String.intercalate "\n" expected401Lines) := by
  constructor
  · intro schemas common h
    obtain ⟨out, hfold, hperm⟩ := find_common_schemas_spec schemas 2 common h
    have hbase : GroupInv [] [] := by
      refine ⟨by simp, ?_, ?_⟩
      · intro fpr g hg
        simp [dictGet] at hg
      · intro fpr _
        simp [occurrencesOf]
    have hinv : GroupInv schemas out := by
      have := groupFold_inv schemas [] [] out hbase hfold
      simpa using this
    obtain ⟨hnd, hsome, hnone⟩ := hinv
    refine ⟨?_, ?_, ?_⟩
    · intro c hc
      have hc2 : c ∈ out.filterMap (SchemaDedup.groupToCommon 2) := hperm.mem_iff.mp hc
      obtain ⟨p, hp, hpc⟩ := List.mem_filterMap.mp hc2
      have hget : dictGet out p.1 = some p.2 := dictGet_of_mem_nodup out hnd p hp
      obtain ⟨hnames, first, rest, hocc, hschema, hec⟩ := hsome p.1 p.2 hget
      unfold SchemaDedup.groupToCommon at hpc
      by_cases hlen : p.2.names.length < 2
      · rw [if_pos hlen] at hpc
        cases hpc
      · rw [if_neg hlen] at hpc
        cases hpc
        refine ⟨?_, ?_, first, rest, hocc, hschema, p.2.error_code, hec, ?_⟩
        · show 2 ≤ p.2.names.length
          omega
        · show p.2.names.length = (occurrencesOf schemas p.1).length
          rw [hnames, List.length_map]
        · show (match p.2.error_code with
            | some error_code => SchemaDedup.generate_common_error_schema_name error_code
            | none => p.2.names.headD "") = _
          cases hecv : p.2.error_code with
          | some code => rfl
          | none =>
              have : p.2.names = first.name :: rest.map SchemaDedup.NamedSchema.name := by
                rw [hnames, hocc, List.map_cons]
              rw [this]
              rfl
    · have hnd2 : ((out.filterMap (SchemaDedup.groupToCommon 2)).map
          SchemaDedup.CommonSchema.fingerprint).Nodup :=
        List.Nodup.sublist (filterMap_groupToCommon_keys_sublist 2 out) hnd
      exact ((hperm.map SchemaDedup.CommonSchema.fingerprint).nodup_iff).mpr hnd2
    · intro fpr h2
      cases hget : dictGet out fpr with
      | none =>
          rw [hnone fpr hget] at h2
          simp at h2
      | some g =>
          obtain ⟨hnames, first, rest, hocc, hschema, hec⟩ := hsome fpr g hget
          have hlen : ¬ g.names.length < 2 := by
            rw [hnames, List.length_map]
            omega
          have hmem : (fpr, g) ∈ out := mem_of_dictGet_some out fpr g hget
          have hgc : ∃ c0, SchemaDedup.groupToCommon 2 (fpr, g) = some c0 := by
            unfold SchemaDedup.groupToCommon
            rw [if_neg hlen]
            exact ⟨_, rfl⟩
          obtain ⟨c0, hc0⟩ := hgc
          exact ⟨c0, hperm.mem_iff.mpr (List.mem_filterMap.mpr ⟨(fpr, g), hmem, hc0⟩),
            groupToCommon_fingerprint 2 (fpr, g) c0 hc0⟩
  · rfl

/-- Witness for the amended hoisting theorem at the two-route `200` example. -/
theorem error_hoisting_groups_and_dedup_witness :
    ∃ c ∈ [(⟨"GetA200Response", simpleStringSchema,
        "\x7b\"type\": \"string\"\x7d", 2⟩ : SchemaDedup.CommonSchema)],
      c.fingerprint = "\x7b\"type\": \"string\"\x7d" :=
  (error_hoisting_groups_and_dedup.1 (ToPython._collect_route_schemas okRoutes)
      [⟨"GetA200Response", simpleStringSchema, "\x7b\"type\": \"string\"\x7d", 2⟩]
      rfl).2.2 "\x7b\"type\": \"string\"\x7d" (by decide)

/-- A schema that is a bare local `$ref` to the named schema. -/
def refTo (n : String) : JValue :=
  .obj [("$ref", .str ("#/components/schemas/" ++ n))]

/-- A four-schema map with a chain into a two-cycle: `A` depends on `B`,
`B` on `C`, and `C` and `D` depend on each other. -/
def cycDoc : List (String × JValue) :=
  [("A", refTo "B"), ("B", refTo "C"), ("C", refTo "D"), ("D", refTo "C")]

/-- No local dependency edge of `cycDoc` ends at `A`. -/
theorem cycDoc_no_edge_to_A : ∀ z, ¬ Dependencies.depEdge cycDoc z "A" := by
  intro z h
  have hz : z = "A" ∨ z = "B" ∨ z = "C" ∨ z = "D" := by
    unfold Dependencies.depEdge Dependencies.localDeps at h
    cases hget : dictGet cycDoc z with
    | none =>
        rw [hget] at h
        simp at h
    | some s =>
        have hmem := mem_of_dictGet_some cycDoc z s hget
        simp [cycDoc] at hmem
        rcases hmem with ⟨hz, _⟩ | ⟨hz, _⟩ | ⟨hz, _⟩ | ⟨hz, _⟩ <;> simp [hz]
  rcases hz with hz | hz | hz | hz <;> subst hz <;>
    exact absurd h (by unfold Dependencies.depEdge; decide)

/-- The only local dependency edge of `cycDoc` ending at `B` starts at `A`. -/
theorem cycDoc_edge_to_B : ∀ z, Dependencies.depEdge cycDoc z "B" → z = "A" := by
  intro z h
  have hz : z = "A" ∨ z = "B" ∨ z = "C" ∨ z = "D" := by
    unfold Dependencies.depEdge Dependencies.localDeps at h
    cases hget : dictGet cycDoc z with
    | none =>
        rw [hget] at h
        simp at h
    | some s =>
        have hmem := mem_of_dictGet_some cycDoc z s hget
        simp [cycDoc] at hmem
        rcases hmem with ⟨hz, _⟩ | ⟨hz, _⟩ | ⟨hz, _⟩ | ⟨hz, _⟩ <;> simp [hz]
  rcases hz with hz | hz | hz | hz <;> subst hz
  · rfl
  all_goals exact absurd h (by unfold Dependencies.depEdge; decide)

/-- C2 counterexample: in `cycDoc` the edge `A → B` has neither endpoint on a
dependency cycle (`A` and `B` only lead into the `C`/`D` cycle), yet the
returned order places `A` before `B`: a name that merely depends on a cycle
is blocked and appended in declaration order, so the claimed edge ordering
fails off-cycle. -/
theorem topological_sort_blocked_chain_counterexample :
    Dependencies.topological_sort_schemas cycDoc = ["A", "B", "C", "D"] ∧
    Dependencies.depEdge cycDoc "A" "B" ∧
    ¬ Dependencies.onCycle cycDoc "A" ∧
    ¬ Dependencies.onCycle cycDoc "B" ∧
    List.indexOf "A" (Dependencies.topological_sort_schemas cycDoc) <
      List.indexOf "B" (Dependencies.topological_sort_schemas cycDoc) := by
  refine ⟨rfl, by unfold Dependencies.depEdge; decide, ?_, ?_, by decide⟩
  · intro h
    obtain ⟨z, _, hedge⟩ := (Relation.TransGen.tail'_iff).mp h
    exact cycDoc_no_edge_to_A z hedge
  · intro h
    obtain ⟨z, hrz, hedge⟩ := (Relation.TransGen.tail'_iff).mp h
    have hz := cycDoc_edge_to_B z hedge
    subst hz
    rcases Relation.ReflTransGen.cases_tail hrz with heq | ⟨c, _, hc⟩
    · exact absurd heq (by decide)
    · exact cycDoc_no_edge_to_A c hc

theorem dictGet_isSome_of_mem_keys {κ α : Type} [DecidableEq κ]
    (m : List (κ × α)) (k : κ) (h : k ∈ m.map Prod.fst) :
    ∃ v, dictGet m k = some v := by
  induction m with
  | nil => simp at h
  | cons p rest ih =>
      by_cases hk : p.1 = k
      · exact ⟨p.2, by simp [dictGet, hk]⟩
      · simp only [List.map_cons, List.mem_cons] at h
        rcases h with h | h
        · exact absurd h.symm hk
        · simpa [dictGet, hk] using ih h

theorem dictHasKey_eq_mem {κ α : Type} [DecidableEq κ]
    (m : List (κ × α)) (k : κ) :
    dictHasKey m k = true ↔ k ∈ m.map Prod.fst := by
  induction m with
  | nil => simp [dictHasKey]
  | cons p rest ih =>
      simp only [dictHasKey, List.map_cons, List.mem_cons, Bool.or_eq_true,
        decide_eq_true_eq, ih]
      constructor
      · rintro (h | h)
        · exact Or.inl h.symm
        · exact Or.inr h
      · rintro (h | h)
        · exact Or.inl h.symm
        · exact Or.inr h

theorem dictGetD_set_self {κ α : Type} [DecidableEq κ] (m : List (κ × α))
    (k : κ) (v d : α) : dictGetD (dictSet m k v) k d = v := by
  unfold dictGetD
  rw [dictGet_set_self]
  rfl

theorem dictGetD_set_ne {κ α : Type} [DecidableEq κ] (m : List (κ × α))
    (k k' : κ) (v d : α) (h : k' ≠ k) :
    dictGetD (dictSet m k v) k' d = dictGetD m k' d := by
  unfold dictGetD
  rw [dictGet_set_ne m k k' v h]

theorem keys_dictSet_of_mem {κ α : Type} [DecidableEq κ] (m : List (κ × α))
    (k : κ) (v : α) (h : k ∈ m.map Prod.fst) :
    (dictSet m k v).map Prod.fst = m.map Prod.fst := by
  obtain ⟨g, hg⟩ := dictGet_isSome_of_mem_keys m k h
  exact keys_dictSet_mem m k v g hg

theorem dedupFirstAux_nodup : ∀ (l seen : List String),
    (dedupFirstAux seen l).Nodup ∧ ∀ x ∈ dedupFirstAux seen l, x ∉ seen := by
  intro l
  induction l with
  | nil => intro seen; simp [dedupFirstAux]
  | cons x rest ih =>
      intro seen
      unfold dedupFirstAux
      by_cases hx : seen.contains x
      · rw [if_pos hx]
        exact ih seen
      · rw [if_neg hx]
        obtain ⟨hnd, hout⟩ := ih (x :: seen)
        refine ⟨List.nodup_cons.mpr ⟨?_, hnd⟩, ?_⟩
        · intro hmem
          exact (hout x hmem) (List.mem_cons_self x seen)
        · intro y hy hyseen
          rcases List.mem_cons.mp hy with h | h
          · subst h
            exact hx (List.elem_iff.mpr hyseen)
          · exact (hout y h) (List.mem_cons_of_mem x hyseen)

theorem dedupFirst_nodup (l : List String) : (dedupFirst l).Nodup :=
  (dedupFirstAux_nodup l []).1

theorem localDeps_nodup (schemas : List (String × JValue)) (n : String) :
    (Dependencies.localDeps schemas n).Nodup := by
  unfold Dependencies.localDeps
  cases dictGet schemas n with
  | none => simp
  | some s =>
      exact List.Nodup.filter _ (dedupFirst_nodup _)

theorem indexOf_lt_of_mem_take (b : String) :
    ∀ (l : List String) (i : Nat), b ∈ l.take i → List.indexOf b l < i := by
  intro l
  induction l with
  | nil => intro i h; simp at h
  | cons x xs ih =>
      intro i h
      cases i with
      | zero => simp at h
      | succ j =>
          simp only [List.take_succ_cons, List.mem_cons] at h
          by_cases hb : x = b
          · simp [List.indexOf_cons, hb]
          · rcases h with h | h
            · exact absurd h.symm hb
            · have := ih j h
              simp only [List.indexOf_cons, cond_eq_if, beq_iff_eq, hb, if_false]
              omega

theorem indexOf_append_left_mem (b : String) (s t : List String) (h : b ∈ s) :
    List.indexOf b (s ++ t) = List.indexOf b s := by
  induction s with
  | nil => simp at h
  | cons x xs ih =>
      by_cases hb : x = b
      · simp [List.indexOf_cons, hb]
      · rcases List.mem_cons.mp h with h' | h'
        · exact absurd h'.symm hb
        · simp only [List.cons_append, List.indexOf_cons, beq_iff_eq, hb, if_false]
          rw [ih h']

theorem foldl_append_missing (names : List String) (hnd : names.Nodup) :
    ∀ acc : List String,
      names.foldl (fun acc n => if acc.contains n then acc else acc ++ [n]) acc =
        acc ++ names.filter (fun n => !acc.contains n) := by
  induction names with
  | nil => intro acc; simp
  | cons n ns ih =>
      intro acc
      obtain ⟨hn, hns⟩ := List.nodup_cons.mp hnd
      simp only [List.foldl_cons]
      by_cases hc : acc.contains n
      · rw [if_pos hc, ih hns acc, List.filter_cons]
        simp [List.elem_iff.mp hc]
      · rw [if_neg hc, ih hns (acc ++ [n]), List.filter_cons]
        simp only [hc, Bool.not_false, if_true]
        have hfeq : ns.filter (fun m => !(acc ++ [n]).contains m) =
            ns.filter (fun m => !acc.contains m) := by
          apply List.filter_congr
          intro m hm
          have hmn : m ≠ n := by
            intro he
            subst he
            exact hn hm
          simp [hmn]
        rw [hfeq]
        simp

theorem assoc_eq_map_of_keys {α : Type} (f : String → α) :
    ∀ (m : List (String × α)) (names : List String),
      m.map Prod.fst = names → (∀ p ∈ m, p.2 = f p.1) →
      m = names.map (fun n => (n, f n)) := by
  intro m
  induction m with
  | nil =>
      intro names h _
      simp at h
      simp [← h]
  | cons p rest ih =>
      intro names h hv
      cases names with
      | nil => simp at h
      | cons n ns =>
          simp only [List.map_cons, List.cons.injEq] at h
          obtain ⟨h1, h2⟩ := h
          have hp : p = (n, f n) := by
            have := hv p (List.mem_cons_self p rest)
            cases p
            simp_all
          simp only [List.map_cons, List.cons.injEq]
          exact ⟨hp, ih ns h2 (fun q hq => hv q (List.mem_cons_of_mem p hq))⟩

theorem filter_not_contains_append (l s : List String) (c : String) :
    l.filter (fun d => !(s ++ [c]).contains d) =
      (l.filter (fun d => !s.contains d)).filter (fun d => !(d == c)) := by
  rw [List.filter_filter]
  apply List.filter_congr
  intro d _
  by_cases h1 : d ∈ s <;> by_cases h2 : d = c <;> simp [h1, h2]

theorem length_filter_ne_of_mem (c : String) :
    ∀ l : List String, l.Nodup → c ∈ l →
      (l.filter (fun d => !(d == c))).length + 1 = l.length := by
  intro l
  induction l with
  | nil => intro _ h; simp at h
  | cons x xs ih =>
      intro hnd hc
      obtain ⟨hx, hxs⟩ := List.nodup_cons.mp hnd
      rcases List.mem_cons.mp hc with h | h
      · subst h
        have : xs.filter (fun d => !(d == c)) = xs := by
          apply List.filter_eq_self.mpr
          intro d hd
          simp only [Bool.not_eq_true', beq_eq_false_iff_ne]
          intro he
          subst he
          exact hx hd
        simp [List.filter_cons, this]
      · have hxc : (x == c) = false := by
          apply beq_eq_false_iff_ne.mpr
          intro he
          subst he
          exact hx h
        simp only [List.filter_cons, hxc, Bool.not_false, if_true, List.length_cons]
        have := ih hxs h
        omega

theorem length_filter_ne_of_not_mem (c : String) (l : List String) (h : c ∉ l) :
    l.filter (fun d => !(d == c)) = l := by
  apply List.filter_eq_self.mpr
  intro d hd
  simp only [Bool.not_eq_true', beq_eq_false_iff_ne]
  intro he
  subst he
  exact h hd

theorem decrementAll_spec :
    ∀ (deps : List String) (m : List (String × Int)), deps.Nodup →
      (∀ d ∈ deps, d ∈ m.map Prod.fst) →
      ((Dependencies.decrementAll deps m).1.map Prod.fst = m.map Prod.fst) ∧
      (∀ k, dictGetD (Dependencies.decrementAll deps m).1 k 0 =
        if deps.contains k then dictGetD m k 0 - 1 else dictGetD m k 0) ∧
      (Dependencies.decrementAll deps m).2 =
        deps.filter (fun d => dictGetD m d 0 == 1) := by
  intro deps
  induction deps with
  | nil =>
      intro m _ _
      exact ⟨rfl, fun k => rfl, rfl⟩
  | cons d rest ih =>
      intro m hnd hsub
      obtain ⟨hd, hrest⟩ := List.nodup_cons.mp hnd
      have hdm : d ∈ m.map Prod.fst := hsub d (List.mem_cons_self d rest)
      set v := dictGetD m d 0 - 1 with hv
      set m1 := dictSet m d v with hm1
      have hkeys1 : m1.map Prod.fst = m.map Prod.fst :=
        keys_dictSet_of_mem m d v hdm
      have hsub1 : ∀ x ∈ rest, x ∈ m1.map Prod.fst := by
        intro x hx
        rw [hkeys1]
        exact hsub x (List.mem_cons_of_mem d hx)
      obtain ⟨ihk, ihg, ihn⟩ := ih m1 hrest hsub1
      have hget1 : ∀ k, k ≠ d → dictGetD m1 k 0 = dictGetD m k 0 := by
        intro k hk
        exact dictGetD_set_ne m d k v 0 hk
      have hget1d : dictGetD m1 d 0 = v := dictGetD_set_self m d v 0
      have heq : Dependencies.decrementAll (d :: rest) m =
          if v = 0 then ((Dependencies.decrementAll rest m1).1,
            d :: (Dependencies.decrementAll rest m1).2)
          else ((Dependencies.decrementAll rest m1).1,
            (Dependencies.decrementAll rest m1).2) := rfl
      have h1 : (Dependencies.decrementAll (d :: rest) m).1 =
          (Dependencies.decrementAll rest m1).1 := by
        rw [heq]
        by_cases hvz : v = 0 <;> simp [hvz]
      have h2 : (Dependencies.decrementAll (d :: rest) m).2 =
          if v = 0 then d :: (Dependencies.decrementAll rest m1).2
          else (Dependencies.decrementAll rest m1).2 := by
        rw [heq]
        by_cases hvz : v = 0 <;> simp [hvz]
      have hrest_filter : rest.filter (fun x => dictGetD m1 x 0 == 1) =
          rest.filter (fun x => dictGetD m x 0 == 1) := by
        apply List.filter_congr
        intro x hx
        have hxd : x ≠ d := by
          intro he
          subst he
          exact hd hx
        rw [hget1 x hxd]
      refine ⟨?_, ?_, ?_⟩
      · rw [h1, ihk, hkeys1]
      · intro k
        rw [h1, ihg k]
        by_cases hk : k = d
        · subst hk
          have hkr : rest.contains k = false := by
            apply Bool.not_eq_true _ |>.mp
            intro hc
            exact hd (List.elem_iff.mp hc)
          rw [hkr]
          simp only [Bool.false_eq_true, if_false]
          rw [hget1d, hv]
          rw [if_pos (by simp [List.elem_iff])]
        · rw [hget1 k hk]
          by_cases hkr : k ∈ rest
          · rw [if_pos (by simp [List.elem_iff, hkr]),
              if_pos (by simp [List.elem_iff, hkr])]
          · rw [if_neg (by simp [List.elem_iff, hkr]),
              if_neg (by simp [List.elem_iff, hkr, hk])]
      · rw [h2, ihn, hrest_filter]
        by_cases hvz : v = 0
        · rw [if_pos hvz]
          have hv1 : (dictGetD m d 0 == 1) = true := by
            rw [beq_iff_eq]
            omega
          rw [List.filter_cons, hv1]
          simp
        · rw [if_neg hvz]
          have hv1 : (dictGetD m d 0 == 1) = false := by
            rw [beq_eq_false_iff_ne]
            omega
          rw [List.filter_cons, hv1]
          simp

theorem dictGet_map_const {α : Type} (c : α) :
    ∀ (names : List String) (k : String),
      dictGet (names.map (fun n => (n, c))) k =
        if k ∈ names then some c else none := by
  intro names
  induction names with
  | nil => intro k; simp [dictGet]
  | cons n ns ih =>
      intro k
      by_cases hk : n = k
      · subst hk
        simp [dictGet]
      · simp only [List.map_cons, dictGet, hk, if_false, ih k, List.mem_cons]
        by_cases hk2 : k ∈ ns <;> simp [hk2, Ne.symm hk]

theorem foldl_dictSet_names (F : String → Int) :
    ∀ (todo : List String) (acc : List (String × Int)),
      (∀ k ∈ todo, k ∈ acc.map Prod.fst) →
      ((todo.foldl (fun acc n => dictSet acc n (F n)) acc).map Prod.fst =
        acc.map Prod.fst) ∧
      (∀ k, dictGet (todo.foldl (fun acc n => dictSet acc n (F n)) acc) k =
        if k ∈ todo then some (F k) else dictGet acc k) := by
  intro todo
  induction todo with
  | nil =>
      intro acc _
      exact ⟨rfl, fun k => by simp⟩
  | cons n ns ih =>
      intro acc hsub
      have hn : n ∈ acc.map Prod.fst := hsub n (List.mem_cons_self n ns)
      have hkeys : (dictSet acc n (F n)).map Prod.fst = acc.map Prod.fst :=
        keys_dictSet_of_mem acc n (F n) hn
      have hsub1 : ∀ k ∈ ns, k ∈ (dictSet acc n (F n)).map Prod.fst := by
        intro k hk
        rw [hkeys]
        exact hsub k (List.mem_cons_of_mem n hk)
      obtain ⟨ihk, ihg⟩ := ih (dictSet acc n (F n)) hsub1
      refine ⟨by rw [List.foldl_cons, ihk, hkeys], ?_⟩
      intro k
      rw [List.foldl_cons, ihg k]
      by_cases hk : k ∈ ns
      · rw [if_pos hk, if_pos (List.mem_cons_of_mem n hk)]
      · rw [if_neg hk]
        by_cases hkn : k = n
        · subst hkn
          rw [dictGet_set_self, if_pos (List.mem_cons_self k ns)]
        · rw [dictGet_set_ne acc n k (F n) hkn,
            if_neg (by simp [hk, hkn])]

theorem dependentsFold_spec (nm : String) :
    ∀ (deps : List String), deps.Nodup →
    ∀ (dm : List (String × List String)), (∀ d ∈ deps, d ∈ dm.map Prod.fst) →
      ((deps.foldl (fun dm dep => dictSet dm dep (dictGetD dm dep [] ++ [nm])) dm).map
        Prod.fst = dm.map Prod.fst) ∧
      (∀ k, dictGetD
          (deps.foldl (fun dm dep => dictSet dm dep (dictGetD dm dep [] ++ [nm])) dm)
          k [] =
        dictGetD dm k [] ++ (if deps.contains k then [nm] else [])) := by
  intro deps
  induction deps with
  | nil =>
      intro _ dm _
      exact ⟨rfl, fun k => by simp⟩
  | cons d rest ih =>
      intro hnd dm hsub
      obtain ⟨hd, hrest⟩ := List.nodup_cons.mp hnd
      have hdm : d ∈ dm.map Prod.fst := hsub d (List.mem_cons_self d rest)
      set dm1 := dictSet dm d (dictGetD dm d [] ++ [nm]) with hdm1
      have hkeys : dm1.map Prod.fst = dm.map Prod.fst :=
        keys_dictSet_of_mem dm d _ hdm
      have hsub1 : ∀ x ∈ rest, x ∈ dm1.map Prod.fst := by
        intro x hx
        rw [hkeys]
        exact hsub x (List.mem_cons_of_mem d hx)
      obtain ⟨ihk, ihg⟩ := ih hrest dm1 hsub1
      refine ⟨by rw [List.foldl_cons, ← hdm1, ihk, hkeys], ?_⟩
      intro k
      rw [List.foldl_cons, ← hdm1, ihg k]
      by_cases hk : k = d
      · subst hk
        have hkr : ¬ k ∈ rest := hd
        rw [if_neg (by simp [List.elem_iff, hkr]),
          if_pos (by simp [List.elem_iff])]
        rw [hdm1, dictGetD_set_self]
        simp
      · have : dictGetD dm1 k [] = dictGetD dm k [] :=
          dictGetD_set_ne dm d k _ [] hk
        rw [this]
        by_cases hkr : k ∈ rest
        · rw [if_pos (by simp [List.elem_iff, hkr]),
            if_pos (by simp [List.elem_iff, hkr])]
        · rw [if_neg (by simp [List.elem_iff, hkr]),
            if_neg (by simp [List.elem_iff, hkr, hk])]

theorem buildDepsFold_spec (schemas : List (String × JValue))
    (hnd : (schemas.map Prod.fst).Nodup) :
    ∀ (todo done : List (String × JValue))
      (accD accT : List (String × List String)),
      schemas = done ++ todo →
      accD.map Prod.fst = schemas.map Prod.fst →
      accT.map Prod.fst = schemas.map Prod.fst →
      (∀ n, dictGetD accD n [] =
        if (done.map Prod.fst).contains n then Dependencies.localDeps schemas n
        else []) →
      (∀ k, dictGetD accT k [] =
        (done.map Prod.fst).filter
          (fun n => (Dependencies.localDeps schemas n).contains k)) →
      ((todo.foldl (Dependencies.buildDepsStep schemas) (accD, accT)).1.map Prod.fst
          = schemas.map Prod.fst) ∧
      ((todo.foldl (Dependencies.buildDepsStep schemas) (accD, accT)).2.map Prod.fst
          = schemas.map Prod.fst) ∧
      (∀ n, dictGetD
          (todo.foldl (Dependencies.buildDepsStep schemas) (accD, accT)).1 n [] =
        if (schemas.map Prod.fst).contains n then Dependencies.localDeps schemas n
        else []) ∧
      (∀ k, dictGetD
          (todo.foldl (Dependencies.buildDepsStep schemas) (accD, accT)).2 k [] =
        (schemas.map Prod.fst).filter
          (fun n => (Dependencies.localDeps schemas n).contains k)) := by
  intro todo
  induction todo with
  | nil =>
      intro done accD accT hsplit hkD hkT hvD hvT
      have hdone : done = schemas := by
        rw [hsplit, List.append_nil]
      subst hdone
      exact ⟨hkD, hkT, hvD, hvT⟩
  | cons e rest ih =>
      intro done accD accT hsplit hkD hkT hvD hvT
      have he_mem : e ∈ schemas := by
        rw [hsplit]
        exact List.mem_append.mpr (Or.inr (List.mem_cons_self e rest))
      have he_get : dictGet schemas e.1 = some e.2 :=
        dictGet_of_mem_nodup schemas hnd e he_mem
      have he_keys : e.1 ∈ schemas.map Prod.fst := List.mem_map_of_mem Prod.fst he_mem
      have hvalid : (Dependencies.extract_schema_dependencies e.2).filter
          (fun dep => dictHasKey schemas dep) = Dependencies.localDeps schemas e.1 := by
        unfold Dependencies.localDeps
        rw [he_get]
      have hstep : Dependencies.buildDepsStep schemas (accD, accT) e =
          (dictSet accD e.1 (Dependencies.localDeps schemas e.1),
           (Dependencies.localDeps schemas e.1).foldl
             (fun dm dep => dictSet dm dep (dictGetD dm dep [] ++ [e.1])) accT) := by
        unfold Dependencies.buildDepsStep
        dsimp only
        rw [hvalid]
      set L := Dependencies.localDeps schemas e.1 with hL
      have hLnd : L.Nodup := localDeps_nodup schemas e.1
      have hLsub : ∀ d ∈ L, d ∈ schemas.map Prod.fst := by
        intro d hdmem
        rw [hL] at hdmem
        unfold Dependencies.localDeps at hdmem
        rw [he_get] at hdmem
        have := List.of_mem_filter hdmem
        exact (dictHasKey_eq_mem schemas d).mp this
      have hkD1 : (dictSet accD e.1 L).map Prod.fst = schemas.map Prod.fst := by
        rw [keys_dictSet_of_mem accD e.1 L (by rw [hkD]; exact he_keys), hkD]
      obtain ⟨hTk, hTg⟩ := dependentsFold_spec e.1 L hLnd accT
        (by intro d hdmem; rw [hkT]; exact hLsub d hdmem)
      have hvD1 : ∀ n, dictGetD (dictSet accD e.1 L) n [] =
          if ((done ++ [e]).map Prod.fst).contains n then
            Dependencies.localDeps schemas n else [] := by
        intro n
        by_cases hn : n = e.1
        · subst hn
          rw [dictGetD_set_self, if_pos (by simp [List.elem_iff])]
        · rw [dictGetD_set_ne accD e.1 n L [] hn, hvD n]
          have hmm : (((done ++ [e]).map Prod.fst).contains n) =
              ((done.map Prod.fst).contains n) := by
            by_cases hdone : n ∈ done.map Prod.fst
            · simp [List.elem_iff, List.map_append, hdone]
            · simp [List.elem_iff, List.map_append, hdone, hn]
          rw [hmm]
      have hvT1 : ∀ k, dictGetD ((Dependencies.localDeps schemas e.1).foldl
          (fun dm dep => dictSet dm dep (dictGetD dm dep [] ++ [e.1])) accT) k [] =
          ((done ++ [e]).map Prod.fst).filter
            (fun n => (Dependencies.localDeps schemas n).contains k) := by
        intro k
        rw [← hL, hTg k, hvT k]
        rw [List.map_append, List.filter_append]
        congr 1
        simp only [List.map_cons, List.map_nil, List.filter_cons, List.filter_nil]
      have := ih (done ++ [e]) (dictSet accD e.1 L)
        ((Dependencies.localDeps schemas e.1).foldl
          (fun dm dep => dictSet dm dep (dictGetD dm dep [] ++ [e.1])) accT)
        (by rw [hsplit, List.append_assoc]; rfl)
        hkD1
        (by rw [← hL, hTk, hkT])
        hvD1 hvT1
      simpa only [List.foldl_cons, hstep] using this

theorem depMaps_spec (schemas : List (String × JValue))
    (hnd : (schemas.map Prod.fst).Nodup) :
    ((Dependencies.depMaps schemas).1.map Prod.fst = schemas.map Prod.fst) ∧
    ((Dependencies.depMaps schemas).2.map Prod.fst = schemas.map Prod.fst) ∧
    (∀ n, dictGetD (Dependencies.depMaps schemas).1 n [] =
      if (schemas.map Prod.fst).contains n then Dependencies.localDeps schemas n
      else []) ∧
    (∀ k, dictGetD (Dependencies.depMaps schemas).2 k [] =
      (schemas.map Prod.fst).filter
        (fun n => (Dependencies.localDeps schemas n).contains k)) := by
  have hinit : ((schemas.map Prod.fst).map
      (fun n => (n, ([] : List String)))).map Prod.fst = schemas.map Prod.fst := by
    rw [List.map_map]
    simp
  have hbase := buildDepsFold_spec schemas hnd schemas []
    ((schemas.map Prod.fst).map (fun n => (n, ([] : List String))))
    ((schemas.map Prod.fst).map (fun n => (n, ([] : List String))))
    (by simp) hinit hinit
    (by
      intro n
      unfold dictGetD
      rw [dictGet_map_const]
      by_cases hn : n ∈ schemas.map Prod.fst <;> simp [hn])
    (by
      intro k
      unfold dictGetD
      rw [dictGet_map_const]
      by_cases hk : k ∈ schemas.map Prod.fst <;> simp [hk])
  exact hbase

theorem depMapsD_eq (schemas : List (String × JValue))
    (hnd : (schemas.map Prod.fst).Nodup) :
    (Dependencies.depMaps schemas).1 =
      (schemas.map Prod.fst).map
        (fun n => (n, Dependencies.localDeps schemas n)) := by
  obtain ⟨hk1, _, hv1, _⟩ := depMaps_spec schemas hnd
  apply assoc_eq_map_of_keys _ _ _ hk1
  intro p hp
  have hkn : ((Dependencies.depMaps schemas).1.map Prod.fst).Nodup := by
    rw [hk1]
    exact hnd
  have hget := dictGet_of_mem_nodup _ hkn p hp
  have hpn : p.1 ∈ schemas.map Prod.fst := by
    rw [← hk1]
    exact List.mem_map_of_mem Prod.fst hp
  have := hv1 p.1
  rw [if_pos (by simp [List.elem_iff, hpn])] at this
  unfold dictGetD at this
  rw [hget] at this
  simpa using this

theorem inDegreeInit_eq (schemas : List (String × JValue))
    (hnd : (schemas.map Prod.fst).Nodup) :
    Dependencies.inDegreeInit schemas =
      (schemas.map Prod.fst).map
        (fun n => (n, ((Dependencies.localDeps schemas n).length : Int))) := by
  unfold Dependencies.inDegreeInit
  rw [depMapsD_eq schemas hnd, List.foldl_map]
  have hinit : (((schemas.map Prod.fst).map (fun n => (n, (0 : Int)))).map
      Prod.fst) = schemas.map Prod.fst := by
    rw [List.map_map]
    simp
  obtain ⟨hk, hg⟩ := foldl_dictSet_names
    (fun n => ((Dependencies.localDeps schemas n).length : Int))
    (schemas.map Prod.fst)
    ((schemas.map Prod.fst).map (fun n => (n, (0 : Int))))
    (by
      intro k hkmem
      rw [hinit]
      exact hkmem)
  apply assoc_eq_map_of_keys _ _ _ (by rw [hk, hinit])
  intro p hp
  have hkeys : ((schemas.map Prod.fst).foldl
      (fun acc n => dictSet acc n ((Dependencies.localDeps schemas n).length : Int))
      ((schemas.map Prod.fst).map (fun n => (n, (0 : Int))))).map Prod.fst =
      schemas.map Prod.fst := by
    rw [hk, hinit]
  have hknd : (((schemas.map Prod.fst).foldl
      (fun acc n => dictSet acc n ((Dependencies.localDeps schemas n).length : Int))
      ((schemas.map Prod.fst).map (fun n => (n, (0 : Int))))).map Prod.fst).Nodup := by
    rw [hkeys]
    exact hnd
  have hget := dictGet_of_mem_nodup _ hknd p hp
  have hpn : p.1 ∈ schemas.map Prod.fst := by
    rw [← hkeys]
    exact List.mem_map_of_mem Prod.fst hp
  rw [hg p.1, if_pos hpn] at hget
  exact ((Option.some.injEq _ _).mp hget).symm

theorem initQueue_eq (schemas : List (String × JValue))
    (hnd : (schemas.map Prod.fst).Nodup) :
    Dependencies.initQueue schemas =
      (schemas.map Prod.fst).filter
        (fun n => (((Dependencies.localDeps schemas n).length : Int) == 0)) := by
  unfold Dependencies.initQueue
  rw [inDegreeInit_eq schemas hnd, List.filter_map, List.map_map]
  have : (Prod.fst ∘ fun n => (n, ((Dependencies.localDeps schemas n).length : Int)))
      = id := by
    funext n
    rfl
  rw [this, List.map_id]
  rfl

/-- Invariant of the Kahn queue loop. -/
def KahnInv (names : List String) (ld : String → List String)
    (in_degree : List (String × Int)) (queue sorted : List String) : Prop :=
  in_degree.map Prod.fst = names ∧
  (sorted ++ queue).Nodup ∧
  (∀ x ∈ sorted ++ queue, x ∈ names) ∧
  (∀ n ∈ names, dictGetD in_degree n 0 =
    (((ld n).filter (fun d => !sorted.contains d)).length : Int)) ∧
  (∀ x ∈ queue, (ld x).filter (fun d => !sorted.contains d) = []) ∧
  (∀ i (h : i < sorted.length), ∀ d ∈ ld (sorted.get ⟨i, h⟩), d ∈ sorted.take i)

theorem sorted_deps_sub (ld : String → List String) (sorted : List String)
    (hord : ∀ i (h : i < sorted.length),
      ∀ d ∈ ld (sorted.get ⟨i, h⟩), d ∈ sorted.take i) :
    ∀ x ∈ sorted, ∀ d ∈ ld x, d ∈ sorted := by
  intro x hx d hd
  obtain ⟨n, hn⟩ := List.mem_iff_get.mp hx
  have := hord n.1 n.2 d (by rw [hn]; exact hd)
  exact List.take_subset n.1 sorted this

theorem kahnLoop_inv (names : List String) (ld : String → List String)
    (T : List (String × List String))
    (hnames : names.Nodup) (hldnd : ∀ n, (ld n).Nodup)
    (hT : ∀ k, dictGetD T k [] = names.filter (fun n => (ld n).contains k)) :
    ∀ (fuel : Nat) (in_degree : List (String × Int)) (queue sorted : List String),
      KahnInv names ld in_degree queue sorted →
      (Dependencies.kahnLoop T fuel in_degree queue sorted).Nodup ∧
      (∀ x ∈ Dependencies.kahnLoop T fuel in_degree queue sorted, x ∈ names) ∧
      (∀ i (h : i < (Dependencies.kahnLoop T fuel in_degree queue sorted).length),
        ∀ d ∈ ld ((Dependencies.kahnLoop T fuel in_degree queue sorted).get ⟨i, h⟩),
          d ∈ (Dependencies.kahnLoop T fuel in_degree queue sorted).take i) := by
  intro fuel
  induction fuel with
  | zero =>
      intro in_degree queue sorted hinv
      obtain ⟨hk, hnd2, hmem, hcount, hqz, hord⟩ := hinv
      have hstop : Dependencies.kahnLoop T 0 in_degree queue sorted = sorted := rfl
      rw [hstop]
      refine ⟨(List.nodup_append.mp hnd2).1, ?_, hord⟩
      intro x hx
      exact hmem x (List.mem_append.mpr (Or.inl hx))
  | succ fuel ih =>
      intro in_degree queue sorted hinv
      obtain ⟨hk, hnd2, hmem, hcount, hqz, hord⟩ := hinv
      cases queue with
      | nil =>
          have hstop : Dependencies.kahnLoop T (fuel + 1) in_degree [] sorted =
              sorted := rfl
          rw [hstop]
          refine ⟨(List.nodup_append.mp hnd2).1, ?_, hord⟩
          intro x hx
          exact hmem x (List.mem_append.mpr (Or.inl hx))
      | cons current rest =>
          set D := dictGetD T current [] with hDdef
          have heq : Dependencies.kahnLoop T (fuel + 1) in_degree
              (current :: rest) sorted =
            Dependencies.kahnLoop T fuel (Dependencies.decrementAll D in_degree).1
              (rest ++ (Dependencies.decrementAll D in_degree).2)
              (sorted ++ [current]) := rfl
          rw [heq]
          have hcur_mem : current ∈ names :=
            hmem current (List.mem_append.mpr (Or.inr (List.mem_cons_self _ _)))
          have hcur_ns : current ∉ sorted := by
            intro hc
            exact (List.nodup_append.mp hnd2).2.2 hc (List.mem_cons_self _ _)
          have hD_eq : D = names.filter (fun n => (ld n).contains current) :=
            hT current
          have hDsub : ∀ d ∈ D, d ∈ names := by
            intro d hd
            rw [hD_eq] at hd
            exact (List.mem_filter.mp hd).1
          have hDnd : D.Nodup := by
            rw [hD_eq]
            exact hnames.filter _
          obtain ⟨hdk, hdg, hdn⟩ := decrementAll_spec D in_degree hDnd
            (by
              intro d hd
              rw [hk]
              exact hDsub d hd)
          have hDc : ∀ n ∈ names, ((D.contains n) = true ↔ current ∈ ld n) := by
            intro n hn
            rw [hD_eq]
            simp [List.elem_iff, List.mem_filter, hn]
          have hnewcount : ∀ n ∈ names,
              dictGetD (Dependencies.decrementAll D in_degree).1 n 0 =
              (((ld n).filter
                (fun d => !(sorted ++ [current]).contains d)).length : Int) := by
            intro n hn
            rw [hdg n, filter_not_contains_append (ld n) sorted current]
            have hLnd : ((ld n).filter (fun d => !sorted.contains d)).Nodup :=
              (hldnd n).filter _
            by_cases hcn : current ∈ ld n
            · rw [if_pos ((hDc n hn).mpr hcn)]
              rw [hcount n hn]
              have hcurL : current ∈ (ld n).filter (fun d => !sorted.contains d) := by
                apply List.mem_filter.mpr
                refine ⟨hcn, ?_⟩
                simp only [Bool.not_eq_true']
                by_cases hcc : sorted.contains current
                · exact absurd (List.elem_iff.mp hcc) hcur_ns
                · simpa using hcc
              have := length_filter_ne_of_mem current _ hLnd hcurL
              omega
            · rw [if_neg (by
                intro hc
                exact hcn ((hDc n hn).mp hc))]
              rw [hcount n hn]
              have hcurL : current ∉ (ld n).filter (fun d => !sorted.contains d) := by
                intro hc
                exact hcn (List.mem_filter.mp hc).1
              rw [length_filter_ne_of_not_mem current _ hcurL]
          have hsortzero : ∀ x ∈ sorted, dictGetD in_degree x 0 = 0 := by
            intro x hx
            rw [hcount x (hmem x (List.mem_append.mpr (Or.inl hx)))]
            have hnil : (ld x).filter (fun d => !sorted.contains d) = [] := by
              apply List.filter_eq_nil_iff.mpr
              intro d hd
              simp only [Bool.not_eq_true', Bool.not_eq_false]
              apply List.elem_iff.mpr
              exact sorted_deps_sub ld sorted hord x hx d hd
            rw [hnil]
            rfl
          have hqzero : ∀ x ∈ current :: rest, dictGetD in_degree x 0 = 0 := by
            intro x hx
            rw [hcount x (hmem x (List.mem_append.mpr (Or.inr hx))), hqz x hx]
            rfl
          have hnew_disj : ∀ x ∈ sorted ++ current :: rest,
              x ∉ (Dependencies.decrementAll D in_degree).2 := by
            intro x hx hxin
            rw [hdn] at hxin
            have hdeg1 : dictGetD in_degree x 0 = 1 :=
              beq_iff_eq.mp (List.mem_filter.mp hxin).2
            rcases List.mem_append.mp hx with h | h
            · rw [hsortzero x h] at hdeg1
              exact absurd hdeg1 (by decide)
            · rw [hqzero x h] at hdeg1
              exact absurd hdeg1 (by decide)
          have hnewnd : (Dependencies.decrementAll D in_degree).2.Nodup := by
            rw [hdn]
            exact hDnd.filter _
          have hnewsub : ∀ x ∈ (Dependencies.decrementAll D in_degree).2,
              x ∈ names := by
            intro x hx
            rw [hdn] at hx
            exact hDsub x (List.mem_filter.mp hx).1
          apply ih
          refine ⟨?_, ?_, ?_, ?_, ?_, ?_⟩
          · rw [hdk, hk]
          · have hshape : (sorted ++ [current]) ++
                (rest ++ (Dependencies.decrementAll D in_degree).2) =
                (sorted ++ current :: rest) ++
                  (Dependencies.decrementAll D in_degree).2 := by
              simp
            rw [hshape]
            apply List.nodup_append.mpr
            exact ⟨hnd2, hnewnd, hnew_disj⟩
          · intro x hx
            rcases List.mem_append.mp hx with h | h
            · rcases List.mem_append.mp h with h2 | h2
              · exact hmem x (List.mem_append.mpr (Or.inl h2))
              · simp only [List.mem_singleton] at h2
                rw [h2]
                exact hcur_mem
            · rcases List.mem_append.mp h with h2 | h2
              · exact hmem x (List.mem_append.mpr
                  (Or.inr (List.mem_cons_of_mem _ h2)))
              · exact hnewsub x h2
          · exact hnewcount
          · intro x hx
            rcases List.mem_append.mp hx with h | h
            · apply List.filter_eq_nil_iff.mpr
              intro d hd
              have hds : d ∈ sorted := by
                have hnil := hqz x (List.mem_cons_of_mem _ h)
                have hall := List.filter_eq_nil_iff.mp hnil d hd
                simp only [Bool.not_eq_true', Bool.not_eq_false] at hall
                exact List.elem_iff.mp hall
              simp only [Bool.not_eq_true', Bool.not_eq_false]
              apply List.elem_iff.mpr
              exact List.mem_append.mpr (Or.inl hds)
            · have hxn : x ∈ names := hnewsub x h
              rw [hdn] at h
              obtain ⟨hxD, hx1⟩ := List.mem_filter.mp h
              have hdeg1 : dictGetD in_degree x 0 = 1 := beq_iff_eq.mp hx1
              have hnew0 : dictGetD (Dependencies.decrementAll D in_degree).1 x 0
                  = 0 := by
                rw [hdg x, if_pos (List.elem_iff.mpr hxD), hdeg1]
                rfl
              have hcast := hnewcount x hxn
              rw [hnew0] at hcast
              have hlen : ((ld x).filter
                  (fun d => !(sorted ++ [current]).contains d)).length = 0 := by
                omega
              exact List.length_eq_zero.mp hlen
          · intro i h d hd
            by_cases hi : i < sorted.length
            · have hget : (sorted ++ [current]).get ⟨i, h⟩ = sorted.get ⟨i, hi⟩ := by
                rw [List.get_eq_getElem, List.get_eq_getElem]
                exact List.getElem_append_left hi
              rw [hget] at hd
              have hd2 := hord i hi d hd
              have htake : (sorted ++ [current]).take i = sorted.take i := by
                rw [List.take_append_eq_append_take]
                have hz : i - sorted.length = 0 := by omega
                rw [hz]
                simp
              rw [htake]
              exact hd2
            · have hi2 : i = sorted.length := by
                simp only [List.length_append, List.length_singleton] at h
                omega
              have hget : (sorted ++ [current]).get ⟨i, h⟩ = current := by
                rw [List.get_eq_getElem]
                exact List.getElem_concat_length sorted current i hi2 _
              rw [hget] at hd
              have hds : d ∈ sorted := by
                have hnil := hqz current (List.mem_cons_self _ _)
                have hall := List.filter_eq_nil_iff.mp hnil d hd
                simp only [Bool.not_eq_true', Bool.not_eq_false] at hall
                exact List.elem_iff.mp hall
              have htake : (sorted ++ [current]).take i = sorted := by
                rw [hi2]
                exact List.take_left sorted [current]
              rw [htake]
              exact hds

theorem dictGet_map_of_fun {α : Type} (F : String → α) :
    ∀ (names : List String) (k : String),
      dictGet (names.map (fun n => (n, F n))) k =
        if k ∈ names then some (F k) else none := by
  intro names
  induction names with
  | nil => intro k; simp [dictGet]
  | cons n ns ih =>
      intro k
      by_cases hk : n = k
      · subst hk
        simp [dictGet]
      · simp only [List.map_cons, dictGet, hk, if_false, ih k, List.mem_cons]
        by_cases hk2 : k ∈ ns <;> simp [hk2, Ne.symm hk]

theorem kahnSorted_props (schemas : List (String × JValue))
    (hnd : (schemas.map Prod.fst).Nodup) :
    (Dependencies.kahnSorted schemas).Nodup ∧
    (∀ x ∈ Dependencies.kahnSorted schemas, x ∈ schemas.map Prod.fst) ∧
    (∀ i (h : i < (Dependencies.kahnSorted schemas).length),
      ∀ d ∈ Dependencies.localDeps schemas
          ((Dependencies.kahnSorted schemas).get ⟨i, h⟩),
        d ∈ (Dependencies.kahnSorted schemas).take i) := by
  obtain ⟨hk1, hk2, hv1, hv2⟩ := depMaps_spec schemas hnd
  have hqueue := initQueue_eq schemas hnd
  have hdeg := inDegreeInit_eq schemas hnd
  apply kahnLoop_inv (schemas.map Prod.fst) (Dependencies.localDeps schemas)
    (Dependencies.depMaps schemas).2 hnd (localDeps_nodup schemas) hv2
  refine ⟨?_, ?_, ?_, ?_, ?_, ?_⟩
  · rw [hdeg, List.map_map]
    simp
  · rw [List.nil_append, hqueue]
    exact hnd.filter _
  · intro x hx
    rw [List.nil_append, hqueue] at hx
    exact (List.mem_filter.mp hx).1
  · intro n hn
    unfold dictGetD
    rw [hdeg, dictGet_map_of_fun
      (fun n => ((Dependencies.localDeps schemas n).length : Int)), if_pos hn]
    have hfe : (Dependencies.localDeps schemas n).filter
        (fun d => !([] : List String).contains d) =
        Dependencies.localDeps schemas n := by
      apply List.filter_eq_self.mpr
      intro d _
      rfl
    rw [hfe]
    rfl
  · intro x hx
    rw [hqueue] at hx
    obtain ⟨_, hx0⟩ := List.mem_filter.mp hx
    have hlen : (Dependencies.localDeps schemas x).length = 0 := by
      have := beq_iff_eq.mp hx0
      omega
    rw [List.length_eq_zero.mp hlen]
    rfl
  · intro i h
    simp at h

/-- C2 (amended): for a schemas map with distinct keys (a Python dict), the
returned order is a permutation of the keys; it is exactly the Kahn-emitted
prefix followed by the remaining names in declaration order (the fill loop
never fails, so the function is total); and for every local dependency edge
`a -> b` where `a` is emitted by the Kahn loop, `b` is also Kahn-emitted and
appears strictly before `a`.  Names not emitted by the Kahn loop are those
blocked by a cycle OR merely depending on one transitively (see the
counterexample), and get no ordering guarantee. -/
theorem topological_sort_perm_order_fill (schemas : List (String × JValue))
    (hnd : (schemas.map Prod.fst).Nodup) :
    List.Perm (Dependencies.topological_sort_schemas schemas)
      (schemas.map Prod.fst) ∧
    Dependencies.topological_sort_schemas schemas =
      Dependencies.kahnSorted schemas ++
        (schemas.map Prod.fst).filter
          (fun n => !(Dependencies.kahnSorted schemas).contains n) ∧
    (∀ a b, Dependencies.depEdge schemas a b →
      a ∈ Dependencies.kahnSorted schemas →
      b ∈ Dependencies.kahnSorted schemas ∧
      List.indexOf b (Dependencies.topological_sort_schemas schemas) <
        List.indexOf a (Dependencies.topological_sort_schemas schemas)) := by
  obtain ⟨hSnd, hSsub, hSord⟩ := kahnSorted_props schemas hnd
  have hfill : Dependencies.topological_sort_schemas schemas =
      Dependencies.kahnSorted schemas ++
        (schemas.map Prod.fst).filter
          (fun n => !(Dependencies.kahnSorted schemas).contains n) := by
    unfold Dependencies.topological_sort_schemas
    dsimp only
    by_cases hlen : (Dependencies.kahnSorted schemas).length ≠
        (schemas.map Prod.fst).length
    · rw [if_pos hlen]
      exact foldl_append_missing (schemas.map Prod.fst) hnd
        (Dependencies.kahnSorted schemas)
    · rw [if_neg hlen]
      push_neg at hlen
      have hperm : List.Perm (Dependencies.kahnSorted schemas)
          (schemas.map Prod.fst) :=
        (hSnd.subperm (fun x hx => hSsub x hx)).perm_of_length_le (by omega)
      have hnil : (schemas.map Prod.fst).filter
          (fun n => !(Dependencies.kahnSorted schemas).contains n) = [] := by
        apply List.filter_eq_nil_iff.mpr
        intro n hn
        simp only [Bool.not_eq_true', Bool.not_eq_false]
        exact List.elem_iff.mpr (hperm.mem_iff.mpr hn)
      rw [hnil, List.append_nil]
  have hlhs_nodup : (Dependencies.kahnSorted schemas ++
      (schemas.map Prod.fst).filter
        (fun n => !(Dependencies.kahnSorted schemas).contains n)).Nodup := by
    apply List.nodup_append.mpr
    refine ⟨hSnd, hnd.filter _, ?_⟩
    intro x hxS hxF
    have hfalse := (List.mem_filter.mp hxF).2
    simp only [Bool.not_eq_true'] at hfalse
    have htrue : (Dependencies.kahnSorted schemas).contains x = true :=
      List.elem_iff.mpr hxS
    rw [hfalse] at htrue
    exact Bool.false_ne_true htrue
  refine ⟨?_, hfill, ?_⟩
  · rw [hfill]
    apply (List.perm_ext_iff_of_nodup hlhs_nodup hnd).mpr
    intro a
    constructor
    · intro ha
      rcases List.mem_append.mp ha with h | h
      · exact hSsub a h
      · exact (List.mem_filter.mp h).1
    · intro ha
      by_cases haS : a ∈ Dependencies.kahnSorted schemas
      · exact List.mem_append.mpr (Or.inl haS)
      · refine List.mem_append.mpr (Or.inr (List.mem_filter.mpr ⟨ha, ?_⟩))
        simp only [Bool.not_eq_true']
        by_cases hc : (Dependencies.kahnSorted schemas).contains a
        · exact absurd (List.elem_iff.mp hc) haS
        · simpa using hc
  · intro a b hedge haS
    obtain ⟨n, hn⟩ := List.mem_iff_get.mp haS
    have hbtake : b ∈ (Dependencies.kahnSorted schemas).take n.1 := by
      apply hSord n.1 n.2 b
      rw [hn]
      exact hedge
    have hbS : b ∈ Dependencies.kahnSorted schemas :=
      List.take_subset _ _ hbtake
    refine ⟨hbS, ?_⟩
    rw [hfill, indexOf_append_left_mem b _ _ hbS, indexOf_append_left_mem a _ _ haS]
    have h1 : List.indexOf a (Dependencies.kahnSorted schemas) <
        (Dependencies.kahnSorted schemas).length :=
      List.indexOf_lt_length.mpr haS
    have h2 := List.getElem_indexOf h1
    have hia : List.indexOf a (Dependencies.kahnSorted schemas) = n.1 := by
      have hn2 := hn
      rw [List.get_eq_getElem] at hn2
      exact (hSnd.getElem_inj_iff).mp (h2.trans hn2.symm)
    have hib := indexOf_lt_of_mem_take b (Dependencies.kahnSorted schemas) n.1 hbtake
    omega


/-- A two-schema map where `A` references `B`. -/
def docW : List (String × JValue) :=
  [("A", refTo "B"), ("B", .obj [("type", .str "string")])]

/-- Witness for the topological-sort theorem at `docW`: the output is a
permutation of the keys with the dependency `B` before `A`. -/
theorem topological_sort_perm_order_fill_witness :
    List.Perm (Dependencies.topological_sort_schemas docW) (docW.map Prod.fst) ∧
    ("B" ∈ Dependencies.kahnSorted docW ∧
      List.indexOf "B" (Dependencies.topological_sort_schemas docW) <
        List.indexOf "A" (Dependencies.topological_sort_schemas docW)) :=
  ⟨(topological_sort_perm_order_fill docW (by decide)).1,
   (topological_sort_perm_order_fill docW (by decide)).2.2 "A" "B"
     (by unfold Dependencies.depEdge; decide) (by decide)⟩
